import Mathlib

/-!
A verification development for the SingingApp offline analysis pipeline
(tools/01_make_events_and_summary.py, 02_compare_with_reference.py,
05_overall_summary.py, 06_key_offset_check.py, 08_autosync_offset.py,
11_align_lyrics.py).

Modelling conventions.
* Times and frequencies read from pitch JSON are IEEE doubles; every finite
  double is a rational number, so they are embedded as `ℚ`.
* Cents values are produced by `1200 * log2(u/r)`; the logarithm is embedded
  exactly over `ℝ` (`Real.logb 2`).  Components that merely *consume* a cents
  array (the 05 summarizer verdict, the 06 key-offset analyzer, stretches of
  the 01/08 statistics) are embedded generically over a `LinearOrderedField`
  with a `FloorRing`, so that the same definitions cover the program's real
  instantiation and evaluate on concrete rational cents arrays (every cents
  array the program can hold is a float array, hence rational).
* Python's `round` rounds half to even (banker's rounding); `round(x, d)`
  rounds at the `d`-th decimal.  These are embedded as `pyRound` and
  `round1`/`round3`/`round4`.
* NumPy reductions (`np.nanmedian`, `np.diff`, masking) are embedded
  elementwise; `np.nanmedian` of a nonempty array sorts and takes the middle
  element (or the mean of the two middle elements).
-/

namespace SingingApp

/-- Python's built-in `round` on a real/rational scalar: round half to even
(banker's rounding), as used by `round(...)` and `int(round(...))` in the
tools.  `⌊q⌋` and `⌊q⌋ + 1` are the two candidates; on an exact tie the even
one is taken. -/
def pyRound {α : Type} [LinearOrderedField α] [FloorRing α] (q : α) : ℤ :=
  let f := ⌊q⌋
  let r := q - (f : α)
  if r < 1/2 then f
  else if 1/2 < r then f + 1
  else if 2 ∣ f then f else f + 1

/-- Python's `round(x, 1)` (one decimal place, half to even). -/
def round1 {α : Type} [LinearOrderedField α] [FloorRing α] (q : α) : α :=
  (pyRound (10 * q) : α) / 10

/-- Python's `round(x, 3)` (three decimal places, half to even). -/
def round3 {α : Type} [LinearOrderedField α] [FloorRing α] (q : α) : α :=
  (pyRound (1000 * q) : α) / 1000

/-- Python's `round(x, 4)` (four decimal places, half to even). -/
def round4 {α : Type} [LinearOrderedField α] [FloorRing α] (q : α) : α :=
  (pyRound (10000 * q) : α) / 10000

/-- `np.nanmedian` on an array with no NaNs (all arrays fed to it in the
tools are already masked to the present values): sort, take the middle
element for odd length, the mean of the two middle elements for even length.
The value on an empty list is irrelevant (NumPy returns NaN there and every
use is guarded); it is set to `0`. -/
def nanmedian {α : Type} [LinearOrderedField α] (l : List α) : α :=
  let s := l.insertionSort (· ≤ ·)
  let n := l.length
  if n % 2 = 1 then s.getD (n / 2) 0
  else (s.getD (n / 2 - 1) 0 + s.getD (n / 2) 0) / 2

/-- `np.diff`: consecutive differences of a list. -/
def npDiff {α : Type} [LinearOrderedField α] (t : List α) : List α :=
  List.zipWith (fun a b => b - a) t t.tail

/-- `min(l)` on a nonempty Python list (`0` on an empty one; every use is
guarded by a nonemptiness test as in the source). -/
def listMin {α : Type} [LinearOrder α] [Zero α] (l : List α) : α :=
  match l with
  | [] => 0
  | x :: xs => xs.foldl min x

/-- `max(l)` on a nonempty Python list (`0` on an empty one). -/
def listMax {α : Type} [LinearOrder α] [Zero α] (l : List α) : α :=
  match l with
  | [] => 0
  | x :: xs => xs.foldl max x

/-! ## Data model

A pitch frame is a pair `(t, f0_hz)` where `f0_hz = none` marks an
unvoiced/low-confidence frame (`null` in the JSON, NaN inside NumPy code).
Event types and verdicts are string tags in the source; they are embedded as
inductive types. -/

/-- A pitch frame `{"t": ..., "f0_hz": ... | null}`. -/
abbrev PitchFrame : Type := ℚ × Option ℚ

/-- The `type` tag of an emitted event. -/
inductive EventKind : Type
  | pitch_low
  | pitch_high
  | unvoiced_miss
deriving DecidableEq

/-- The verdict tag of a summary. -/
inductive Verdict : Type
  | mostly_ok
  | needs_work
  | overall_low
  | overall_high
  | inconsistent
  | insufficient_data
deriving DecidableEq

/-- An emitted event.  `stop` is the source's `end` field (a Lean keyword).
For `unvoiced_miss` events the cents statistics are absent. -/
structure Event (α : Type) where
  start : ℚ
  stop : ℚ
  kind : EventKind
  avg_cents : Option α
  max_cents : Option α
deriving DecidableEq

/-- The cents function of 01 (`cents(a, b) = 1200*log2(a/b)`, called with the
user value first) and the numeric core of 02's comparator and of
05/06/08's masked `1200.0 * np.log2(f_usr / f_ref)`. -/
noncomputable def centsFn (u r : ℚ) : ℝ := 1200 * Real.logb 2 ((u : ℝ) / (r : ℝ))

/-! ## tools/01_make_events_and_summary.py

The embedding follows the single pass of `main` (lines 65-96) index by
index: for `i < n = min(len(ref), len(usr))` the pass records the frame
interval `(t_i, t_i + hop/sr)`, an `unvoiced_miss` flag, `pitch_low` and
`pitch_high` flags, a cents value (with `0.0` standing for a frame where the
cents difference was not computed), and the `voiced_frames`/`within`
counters. -/

/-- Frame count of the 01 pass: `n = min(len(ref_tr), len(usr_tr))`. -/
def n01 (ref usr : List PitchFrame) : ℕ := min ref.length usr.length

/-- The `t` of frame `i` of a track (frames are only read at `i` below the
track length). -/
def tAt (tr : List PitchFrame) (i : ℕ) : ℚ := (tr.getD i (0, none)).1

/-- The `f0_hz` of frame `i` of a track. -/
def f0At (tr : List PitchFrame) (i : ℕ) : Option ℚ := (tr.getD i (0, none)).2

/-- The 01 pass's `times`: `(t0, t0 + hop/sr)` for each frame. -/
def times01 (ref usr : List PitchFrame) (sr hop : ℚ) : List (ℚ × ℚ) :=
  (List.range (n01 ref usr)).map (fun i => (tAt ref i, tAt ref i + hop / sr))

/-- `unvoiced_miss_flags[i]`: reference voiced (`f0_hz` present), user not. -/
def missAt01 (ref usr : List PitchFrame) (i : ℕ) : Bool :=
  (f0At ref i).isSome && (f0At usr i).isNone

/-- Whether both `f0_hz` values are present at frame `i` (the frames counted
by `voiced_frames`). -/
def bothAt01 (ref usr : List PitchFrame) (i : ℕ) : Bool :=
  (f0At ref i).isSome && (f0At usr i).isSome

/-- `cents_list[i]` of the 01 pass: `cents(uf, rf)` when both values are
present, `0.0` otherwise (the pass appends `0.0` in both `continue`
branches). -/
noncomputable def centsAt01 (ref usr : List PitchFrame) (i : ℕ) : ℝ :=
  match f0At ref i, f0At usr i with
  | some r, some u => centsFn u r
  | _, _ => 0

/-- `low_flags[i]`: both present and `c < -tol` (`False` in both `continue`
branches). -/
noncomputable def lowAt01 (ref usr : List PitchFrame) (tol : ℚ) (i : ℕ) : Bool :=
  match f0At ref i, f0At usr i with
  | some r, some u => decide (centsFn u r < -(tol : ℝ))
  | _, _ => false

/-- `high_flags[i]`: both present and `c > tol`. -/
noncomputable def highAt01 (ref usr : List PitchFrame) (tol : ℚ) (i : ℕ) : Bool :=
  match f0At ref i, f0At usr i with
  | some r, some u => decide ((tol : ℝ) < centsFn u r)
  | _, _ => false

/-- `within`-counted at frame `i`: both present and `abs(c) <= tol`. -/
noncomputable def withinAt01 (ref usr : List PitchFrame) (tol : ℚ) (i : ℕ) : Bool :=
  match f0At ref i, f0At usr i with
  | some r, some u => decide (|centsFn u r| ≤ (tol : ℝ))
  | _, _ => false

/-- The 01 pass's `cents_list`. -/
noncomputable def centsList01 (ref usr : List PitchFrame) : List ℝ :=
  (List.range (n01 ref usr)).map (centsAt01 ref usr)

/-- The 01 pass's `low_flags`. -/
noncomputable def lowFlags01 (ref usr : List PitchFrame) (tol : ℚ) : List Bool :=
  (List.range (n01 ref usr)).map (lowAt01 ref usr tol)

/-- The 01 pass's `high_flags`. -/
noncomputable def highFlags01 (ref usr : List PitchFrame) (tol : ℚ) : List Bool :=
  (List.range (n01 ref usr)).map (highAt01 ref usr tol)

/-- The 01 pass's `unvoiced_miss_flags`. -/
def unvoicedFlags01 (ref usr : List PitchFrame) : List Bool :=
  (List.range (n01 ref usr)).map (missAt01 ref usr)

/-- The 01 pass's `voiced_frames` counter. -/
def voicedFrames01 (ref usr : List PitchFrame) : ℕ :=
  (List.range (n01 ref usr)).countP (fun i => bothAt01 ref usr i)

/-- The 01 pass's `within` counter. -/
noncomputable def within01 (ref usr : List PitchFrame) (tol : ℚ) : ℕ :=
  (List.range (n01 ref usr)).countP (fun i => withinAt01 ref usr tol i)

/-- `voiced_cents = [c for c in cents_list if c != 0.0]` (line 100): the
sub-list of `cents_list` the distribution statistics are computed over. -/
noncomputable def voicedCents01 (ref usr : List PitchFrame) : List ℝ :=
  (centsList01 ref usr).filter (fun c => decide (¬ c = 0))

/-- 01's `mean` over `voiced_cents` (`0.0` when empty). -/
noncomputable def mean01 (ref usr : List PitchFrame) : ℝ :=
  let vc := voicedCents01 ref usr
  if vc = [] then 0 else vc.sum / vc.length

/-- 01's population `std` over `voiced_cents` (`0.0` when empty). -/
noncomputable def std01 (ref usr : List PitchFrame) : ℝ :=
  let vc := voicedCents01 ref usr
  if vc = [] then 0
  else Real.sqrt ((vc.map (fun x => (x - mean01 ref usr) ^ 2)).sum / vc.length)

/-- 01's `percentile(xs, q)` (lines 104-113): linear interpolation between
order statistics of the sorted list; `0.0` on an empty list. -/
noncomputable def percentile01 (xs : List ℝ) (q : ℝ) : ℝ :=
  if xs = [] then 0
  else
    let s := xs.insertionSort (· ≤ ·)
    let k : ℝ := ((xs.length - 1 : ℕ) : ℝ) * q
    let f := ⌊k⌋
    let c := ⌈k⌉
    if f = c then s.getD f.toNat 0
    else s.getD f.toNat 0 + (s.getD c.toNat 0 - s.getD f.toNat 0) * (k - (f : ℝ))

/-- 01's `percent_within_tol` output value:
`round((within/voiced_frames) if voiced_frames else 0.0, 4)`. -/
noncomputable def percentWithinOut01 (ref usr : List PitchFrame) (tol : ℚ) : ℝ :=
  round4 (if voicedFrames01 ref usr = 0 then 0
          else (within01 ref usr tol : ℝ) / (voicedFrames01 ref usr : ℝ))

/-- 01's `percent_low` output value (`sum(low_flags)` counts the `True`
flags). -/
noncomputable def percentLowOut01 (ref usr : List PitchFrame) (tol : ℚ) : ℝ :=
  round4 (if voicedFrames01 ref usr = 0 then 0
          else (((lowFlags01 ref usr tol).count true : ℕ) : ℝ) / (voicedFrames01 ref usr : ℝ))

/-- 01's `percent_high` output value. -/
noncomputable def percentHighOut01 (ref usr : List PitchFrame) (tol : ℚ) : ℝ :=
  round4 (if voicedFrames01 ref usr = 0 then 0
          else (((highFlags01 ref usr tol).count true : ℕ) : ℝ) / (voicedFrames01 ref usr : ℝ))

/-- 01's verdict (lines 132-139): `mostly_ok` iff the *rounded*
`percent_within_tol` is at least `0.85`, else `needs_work`. -/
noncomputable def verdict01 (ref usr : List PitchFrame) (tol : ℚ) : Verdict :=
  if (17 : ℝ) / 20 ≤ percentWithinOut01 ref usr tol then Verdict.mostly_ok
  else Verdict.needs_work

/-! ### 01's `group_events`

The source walks `flags` with two nested `while` loops: skip `False`, then
extend a maximal run `[i, j)` of `True` flags and emit one event for it.
The embedding walks the list once with the currently open run start as
state, which yields the same maximal runs in the same order. -/

/-- Maximal runs of `true` in `flags`, as half-open index pairs `[s, e)`.
`i` is the index of the head of the remaining list, `s` the start of the
currently open run. -/
def trueRuns (flags : List Bool) (i : ℕ) (s : Option ℕ) : List (ℕ × ℕ) :=
  match flags, s with
  | [], some s0 => [(s0, i)]
  | [], none => []
  | true :: rest, none => trueRuns rest (i + 1) (some i)
  | true :: rest, some s0 => trueRuns rest (i + 1) (some s0)
  | false :: rest, none => trueRuns rest (i + 1) none
  | false :: rest, some s0 => (s0, i) :: trueRuns rest (i + 1) none

/-- The event 01 emits for the run `[s, e)` (lines 18-29): `start` is
`times[s][0]`, `end` is `times[e-1][1]`, both rounded to 3 decimals; when a
cents list is supplied and the run's slice of it is nonempty, `avg_cents` is
its mean and `max_cents` its minimum (for `pitch_low`) or maximum (for
`pitch_high`), rounded to 1 decimal. -/
noncomputable def mkEvent01 (times : List (ℚ × ℚ)) (kind : EventKind)
    (cv : Option (List ℝ)) (se : ℕ × ℕ) : Event ℝ :=
  let start := (times.getD se.1 (0, 0)).1
  let stop := (times.getD (se.2 - 1) (0, 0)).2
  match cv with
  | none => ⟨round3 start, round3 stop, kind, none, none⟩
  | some cvl =>
    let seg := (cvl.drop se.1).take (se.2 - se.1)
    if seg = [] then ⟨round3 start, round3 stop, kind, none, none⟩
    else
      let avg := some (round1 (seg.sum / (seg.length : ℝ)))
      match kind with
      | EventKind.pitch_low => ⟨round3 start, round3 stop, kind, avg, some (round1 (listMin seg))⟩
      | EventKind.pitch_high => ⟨round3 start, round3 stop, kind, avg, some (round1 (listMax seg))⟩
      | EventKind.unvoiced_miss => ⟨round3 start, round3 stop, kind, avg, none⟩

/-- 01's `group_events(flags, times, kind, cents_values)`. -/
noncomputable def groupEvents (flags : List Bool) (times : List (ℚ × ℚ))
    (kind : EventKind) (cv : Option (List ℝ)) : List (Event ℝ) :=
  (trueRuns flags 0 none).map (mkEvent01 times kind cv)

/-- 01's `events` list (lines 141-144): `pitch_low`, then `pitch_high`
(both with cents statistics), then `unvoiced_miss` (without). -/
noncomputable def events01 (ref usr : List PitchFrame) (sr hop tol : ℚ) : List (Event ℝ) :=
  groupEvents (lowFlags01 ref usr tol) (times01 ref usr sr hop) EventKind.pitch_low
      (some (centsList01 ref usr))
    ++ groupEvents (highFlags01 ref usr tol) (times01 ref usr sr hop) EventKind.pitch_high
      (some (centsList01 ref usr))
    ++ groupEvents (unvoicedFlags01 ref usr) (times01 ref usr sr hop) EventKind.unvoiced_miss none

/-! ## tools/02_compare_with_reference.py -/

/-- 02's `hz_to_cents_ratio(f_usr, f_ref)` (lines 68-72): `None` when either
operand is missing or not strictly positive, else `1200 * log2(f_usr/f_ref)`. -/
noncomputable def hzToCents (fu fr : Option ℚ) : Option ℝ :=
  match fu, fr with
  | some u, some r => if u ≤ 0 ∨ r ≤ 0 then none else some (centsFn u r)
  | _, _ => none

/-- The inner `while` of 02's `align_user_to_ref`: advance `j` while
`j + 1 < len(t_usr)` and `t_usr[j+1] <= tr`. -/
def advanceJ (tUsr : List ℚ) (tr : ℚ) (j : ℕ) : ℕ :=
  if h : j + 1 < tUsr.length ∧ tUsr.getD (j + 1) 0 ≤ tr then advanceJ tUsr tr (j + 1) else j
termination_by tUsr.length - j
decreasing_by
  omega

/-- The nonempty-user loop of 02's `align_user_to_ref`: one pass over
`t_ref`, carrying `j` from one reference time to the next. -/
def alignUserToRefAux (tUsr : List ℚ) : List ℚ → ℕ → List ℕ
  | [], _ => []
  | tr :: rest, j =>
    let j2 := advanceJ tUsr tr j
    let pick := if j2 + 1 < tUsr.length ∧ |tUsr.getD (j2 + 1) 0 - tr| < |tUsr.getD j2 0 - tr|
                then j2 + 1 else j2
    pick :: alignUserToRefAux tUsr rest j2

/-- 02's `align_user_to_ref(t_ref, t_usr)` (lines 38-66): on an empty user
track it returns `[None] * len(t_ref)`; otherwise, for each reference time,
the index of the nearest user frame. -/
def alignUserToRef (tRef tUsr : List ℚ) : List (Option ℕ) :=
  if tUsr = [] then List.replicate tRef.length none
  else (alignUserToRefAux tUsr tRef 0).map some

/-- 02's `f_usr_on_ref` (lines 106-108): look the chosen index up in the
user `f0` array, `None` for a missing or out-of-range index. -/
def fUsrOnRef02 (tRef tUsr : List ℚ) (fUsr : List (Option ℚ)) : List (Option ℚ) :=
  (alignUserToRef tRef tUsr).map (fun c =>
    match c with
    | some i => if i < fUsr.length then fUsr.getD i none else none
    | none => none)

/-- 02's `cents` list (line 113): `hz_to_cents_ratio` over
`zip(f_usr_on_ref, f_ref)`. -/
noncomputable def cents02 (fUsrOnRef fRef : List (Option ℚ)) : List (Option ℝ) :=
  List.zipWith hzToCents fUsrOnRef fRef

/-- The state machine of 02's `segment_mask` (lines 74-85): the source walks
`mask + [False]` (sentinel) with the open run start `s`; a run is emitted
when it closes and spans at least `min_len_frames` frames. -/
def segMaskAux (minLen : ℕ) : List Bool → ℕ → Option ℕ → List (ℕ × ℕ)
  | [], _, _ => []
  | true :: rest, i, none => segMaskAux minLen rest (i + 1) (some i)
  | true :: rest, i, some s0 => segMaskAux minLen rest (i + 1) (some s0)
  | false :: rest, i, none => segMaskAux minLen rest (i + 1) none
  | false :: rest, i, some s0 =>
    (if minLen ≤ i - s0 then [(s0, i)] else []) ++ segMaskAux minLen rest (i + 1) none

/-- 02's `segment_mask(mask, min_len_frames)`. -/
def segmentMask (mask : List Bool) (minLen : ℕ) : List (ℕ × ℕ) :=
  segMaskAux minLen (mask ++ [false]) 0 none

/-- 02's `min_frames = max(1, int(round(MIN_DURATION_SEC * fps)))`. -/
def minFrames02 (minDur fps : ℚ) : ℕ := max 1 (pyRound (minDur * fps)).toNat

/-! ## The NumPy nearest-frame lookup of 05/06 (`align_on_ref`), reused
verbatim inside 08 (`crosscorr_offset` lines 31-33 and
`compare_make_events` lines 76-78):

    idx = np.searchsorted(t_usr, t_ref)
    idx = np.clip(idx, 1, len(t_usr)-1)
    np.where(np.abs(t_usr[idx-1]-t_ref) <= np.abs(t_usr[idx]-t_ref), idx-1, idx)

The embedding keeps NumPy's semantics: `np.clip(x, lo, hi) = min(max(x, lo),
hi)` even when `lo > hi` (an empty user track gives `hi = -1`), array
indexing accepts negative indices down to `-len`, and anything further out
of range raises - modelled as `none`. -/

/-- NumPy array indexing with Python negative-index semantics; `none` models
the `IndexError` raised outside `[-len, len)`. -/
def pyGet {β : Type} (l : List β) (i : ℤ) : Option β :=
  if 0 ≤ i then l.get? i.toNat
  else if 0 ≤ i + l.length then l.get? (i + l.length).toNat
  else none

/-- `np.clip` on an integer scalar: `min(max(x, lo), hi)`. -/
def npClip (x lo hi : ℤ) : ℤ := min (max x lo) hi

/-- `np.searchsorted(a, v)` (side `left`) for the sorted arrays these tools
pass: the count of elements strictly below `v`. -/
def searchsortedLeft (a : List ℚ) (v : ℚ) : ℕ := a.countP (fun x => decide (x < v))

/-- The per-reference-time body of `align_on_ref`: clip the insertion point
to `[1, len(t_usr)-1]` and pick whichever of the two neighbouring user
frames lies closer. -/
def alignOnRefAt (tUsr : List ℚ) (tr : ℚ) : Option ℤ :=
  let idx := npClip (searchsortedLeft tUsr tr) 1 ((tUsr.length : ℤ) - 1)
  match pyGet tUsr (idx - 1), pyGet tUsr idx with
  | some a, some b => some (if |a - tr| ≤ |b - tr| then idx - 1 else idx)
  | _, _ => none

/-- 05/06's `align_on_ref(t_ref, t_usr)` (and the identical alignment step
of 08): `none` models the `IndexError` its array reads raise (which happens
exactly when the user track is empty and the reference is not). -/
def alignOnRef (tRef tUsr : List ℚ) : Option (List ℤ) :=
  tRef.mapM (alignOnRefAt tUsr)

/-! ## tools/05_overall_summary.py - the summary/verdict stage

`main` masks both tracks to the frames where both `f0` values are present
and positive and computes `cents = 1200*log2(f_usr/f_ref)` there (the same
pointwise function as 02's comparator, claim C4); everything after line 59
is a function of the resulting cents array and of `fps = sr/hop`.  That
stage is embedded generically over a `LinearOrderedField` with `FloorRing`:
the program instantiates it at the (real-valued) cents array, and since
every cents array the program holds is an IEEE-double array, rational
instances are faithful concrete inputs. -/

section Summary05

variable {α : Type} [LinearOrderedField α] [FloorRing α]

/-- 05's `p_within = np.nanmean(np.abs(cents) <= TOL_CENTS)`: the fraction
of the (all-present) cents values inside the tolerance band.  (On an empty
array the source holds NaN and is guarded; division by zero yields `0`
here.) -/
def pWithin05 (cents : List α) (tol : α) : α :=
  ((cents.countP (fun c => decide (|c| ≤ tol)) : ℕ) : α) / (cents.length : α)

/-- 05's `p_low = np.nanmean(cents < -TOL_CENTS)`. -/
def pLow05 (cents : List α) (tol : α) : α :=
  ((cents.countP (fun c => decide (c < -tol)) : ℕ) : α) / (cents.length : α)

/-- 05's `p_high = np.nanmean(cents > TOL_CENTS)`. -/
def pHigh05 (cents : List α) (tol : α) : α :=
  ((cents.countP (fun c => decide (tol < c)) : ℕ) : α) / (cents.length : α)

/-- 05's `mean_c = np.nanmean(cents)` (guarded nonempty in the source). -/
def mean05 (cents : List α) : α := cents.sum / (cents.length : α)

/-- The square of 05's `std_c = np.nanstd(cents)` (population standard
deviation).  `std_c > 120` is embedded as `variance05 > 120^2 = 14400`,
which is equivalent since the standard deviation is the nonnegative square
root of this value; squaring keeps the stage inside the field. -/
def variance05 (cents : List α) : α :=
  ((cents.map (fun x => (x - mean05 cents) ^ 2)).sum) / (cents.length : α)

/-- 05's `bias = med_c if not math.isnan(med_c) else mean_c`:
`np.nanmedian` is NaN exactly on an empty array. -/
def bias05 (cents : List α) : α :=
  if cents = [] then mean05 cents else nanmedian cents

/-- 05's verdict chain (lines 88-117).  `verdict` starts as
`insufficient_data` and is overwritten only when
`seconds >= MIN_SECONDS and cents.size`, where
`seconds = len(t_ref)/fps = len(cents)/fps`.  Thresholds: `0.15 = 3/20`,
`0.55 = 11/20`, `std > 120` as `variance > 14400`. -/
def verdict05 (cents : List α) (fps tol minSeconds : α) : Verdict :=
  let seconds := (cents.length : α) / fps
  if minSeconds ≤ seconds ∧ cents ≠ [] then
    let bias := bias05 cents
    let diffRatio := pHigh05 cents tol - pLow05 cents tol
    if bias ≤ -20 ∨ diffRatio ≤ -(3/20) then Verdict.overall_low
    else if 20 ≤ bias ∨ (3/20) ≤ diffRatio then Verdict.overall_high
    else if pWithin05 cents tol < 11/20 ∨ 14400 < variance05 cents then Verdict.inconsistent
    else Verdict.mostly_ok
  else Verdict.insufficient_data

/-- The specification's verdict decision procedure (spec section 4.5, rules
1-7), written from the spec's words for comparison with `verdict05`: the
same rules 1-5, then `percent_within_tol >= 0.85` gives `mostly_ok` and
every remaining case gives `needs_work`. -/
def specSummarizerVerdict (cents : List α) (fps tol minSeconds : α) : Verdict :=
  let seconds := (cents.length : α) / fps
  if seconds < minSeconds ∨ cents = [] then Verdict.insufficient_data
  else
    let bias := bias05 cents
    let biasDiff := pHigh05 cents tol - pLow05 cents tol
    if bias ≤ -20 ∨ biasDiff ≤ -(3/20) then Verdict.overall_low
    else if 20 ≤ bias ∨ (3/20) ≤ biasDiff then Verdict.overall_high
    else if pWithin05 cents tol < 11/20 ∨ 14400 < variance05 cents then Verdict.inconsistent
    else if 17/20 ≤ pWithin05 cents tol then Verdict.mostly_ok
    else Verdict.needs_work

/-- The spec's decision procedure amended at its last two rules: every case
that reaches rule 6 yields `mostly_ok` (the code has no `needs_work`
branch). -/
def specSummarizerVerdictAmended (cents : List α) (fps tol minSeconds : α) : Verdict :=
  let seconds := (cents.length : α) / fps
  if seconds < minSeconds ∨ cents = [] then Verdict.insufficient_data
  else
    let bias := bias05 cents
    let biasDiff := pHigh05 cents tol - pLow05 cents tol
    if bias ≤ -20 ∨ biasDiff ≤ -(3/20) then Verdict.overall_low
    else if 20 ≤ bias ∨ (3/20) ≤ biasDiff then Verdict.overall_high
    else if pWithin05 cents tol < 11/20 ∨ 14400 < variance05 cents then Verdict.inconsistent
    else Verdict.mostly_ok

/-- The rounded `percent_within_tol` field of 05's output
(`round(p_within, 3)`; emitted only when the cents array is nonempty). -/
def pWithinOut05 (cents : List α) (tol : α) : α := round3 (pWithin05 cents tol)

/-- The rounded `percent_low` field of 05's output. -/
def pLowOut05 (cents : List α) (tol : α) : α := round3 (pLow05 cents tol)

/-- The rounded `percent_high` field of 05's output. -/
def pHighOut05 (cents : List α) (tol : α) : α := round3 (pHigh05 cents tol)

end Summary05

/-! ## tools/06_key_offset_check.py - the key/octave stage

As with 05, everything after the mask (lines 112-123) is a function of the
masked cents array; the claim-relevant part is the octave wrapping. -/

section Key06

variable {α : Type} [LinearOrderedField α] [FloorRing α]

/-- 06's `k_oct = int(round(med / 1200.0))` (line 119). -/
def kOct (cents : List α) : ℤ := pyRound (nanmedian cents / 1200)

/-- 06's `wrapped = cents - (k_oct * 1200.0)` (line 120), elementwise. -/
def wrappedCents (cents : List α) : List α :=
  cents.map (fun c => c - 1200 * (kOct cents : α))

/-- 06's `med_wrapped = float(np.nanmedian(wrapped))` (line 121). -/
def wrappedMedianCents (cents : List α) : α := nanmedian (wrappedCents cents)

end Key06

/-! ## tools/08_autosync_offset.py -/

/-- 08's `voiced_mask(f).astype(int)`: `1` where `f0` is present and
positive, `0` elsewhere. -/
def voicedMask08 (f : List (Option ℚ)) : List ℚ :=
  f.map (fun v =>
    match v with
    | some x => if 0 < x then 1 else 0
    | none => 0)

/-- 08's frame period estimate `dt = median(np.diff(tR))` (`0.01` for a
track shorter than two frames). -/
def dtOf (tR : List ℚ) : ℚ :=
  if 1 < tR.length then nanmedian (npDiff tR) else 1 / 100

/-- The reference-side slice `a` of 08's shift search at lag `k`
(`mR[-k:]` for `k < 0`, `mR[:-k]` for `k > 0`, `mR` for `k = 0`). -/
def overlapA (mR : List ℚ) (k : ℤ) : List ℚ :=
  if k < 0 then mR.drop k.natAbs else mR.take (mR.length - k.toNat)

/-- The user-side slice `b` of 08's shift search at lag `k`
(`mU_on_R[:len(a)]` for `k < 0`, `mU_on_R[k:k+len(a)]` for `k >= 0`). -/
def overlapB (mUonR : List ℚ) (k : ℤ) (alen : ℕ) : List ℚ :=
  if k < 0 then mUonR.take alen else (mUonR.drop k.toNat).take alen

/-- The dot product 08 scores a candidate lag `k` with
(`np.dot(a.astype(float), b.astype(float))`). -/
def scoreAt (mR mUonR : List ℚ) (k : ℤ) : ℚ :=
  let a := overlapA mR k
  (List.zipWith (fun x y => x * y) a (overlapB mUonR k a.length)).sum

/-- The integers from `lo` to `hi` inclusive (`range(lo, hi+1)`). -/
def rangeInt (lo hi : ℤ) : List ℤ :=
  (List.range (hi + 1 - lo).toNat).map (fun i : ℕ => lo + (i : ℤ))

/-- Whether 08's loop scores lag `k` at all: the slices must hold at least
10 frames (`if len(a) < 10: continue`); `len(a) = n - |k|`. -/
def lagScored (n : ℕ) (k : ℤ) : Prop := 10 ≤ n - k.natAbs

instance (n : ℕ) (k : ℤ) : Decidable (lagScored n k) := by
  unfold lagScored
  infer_instance

/-- One iteration of 08's shift search loop: skip a lag with fewer than 10
overlapping frames (`if len(a) < 10: continue`), otherwise keep the
candidate `(k, score)` exactly when it strictly improves on the best score
so far. -/
def bestLagStep (mR mUonR : List ℚ) (st : ℤ × ℚ) (k : ℤ) : ℤ × ℚ :=
  if (overlapA mR k).length < 10 then st
  else if st.2 < scoreAt mR mUonR k then (k, scoreAt mR mUonR k) else st

/-- 08's shift search loop (lines 38-53): scan `k` from
`-max_shift_frames` to `+max_shift_frames` with `best_score = -1.0`,
`best_k = 0` initially.  Returns `(best_k, best_score)`. -/
def bestLag (mR mUonR : List ℚ) (m : ℤ) : ℤ × ℚ :=
  (rangeInt (-m) m).foldl (bestLagStep mR mUonR) (0, -1)

/-- 08's `crosscorr_offset(tR, mR, tU, mU, max_shift)`: align the user mask
onto the reference grid with the NumPy nearest-frame lookup, then run the
shift search; returns `(best_k * dt, best_score)`.  `none` models the
`IndexError` of the lookup on an empty user track. -/
def crosscorrOffset (tR mR tU mU : List ℚ) (maxShift : ℚ) : Option (ℚ × ℚ) :=
  (alignOnRef tR tU).bind (fun choose =>
    (choose.mapM (fun i => pyGet mU i)).map (fun mUonR =>
      let dt := dtOf tR
      let m := pyRound (maxShift / dt)
      let bl := bestLag mR mUonR m
      ((bl.1 : ℚ) * dt, bl.2)))

/-- The state machine of 08's `seg_from_mask` (lines 88-98): open a run at
a `True` flag, close it at a `False` flag or at the end of the mask
(half-open end `i` resp. `i+1`), and keep runs of at least `min_frames`
frames. -/
def segFromMaskAux (minFrames : ℕ) : List Bool → ℕ → Option ℕ → List (ℕ × ℕ)
  | [], _, _ => []
  | v :: rest, i, s =>
    let s1 := if v ∧ s = none then some i else s
    match s1 with
    | some s0 =>
      if ¬ v = true ∨ rest = [] then
        (if minFrames ≤ (if ¬ v = true then i else i + 1) - s0
         then [(s0, if ¬ v = true then i else i + 1)] else [])
          ++ segFromMaskAux minFrames rest (i + 1) none
      else segFromMaskAux minFrames rest (i + 1) (some s0)
    | none => segFromMaskAux minFrames rest (i + 1) none

/-- 08's `seg_from_mask(msk)` with its `min_frames` made explicit. -/
def segFromMask (msk : List Bool) (minFrames : ℕ) : List (ℕ × ℕ) :=
  segFromMaskAux minFrames msk 0 none

/-- 08's `min_frames = max(1, int(math.ceil(min_event_sec * fps)))`. -/
def minFrames08 (minEventSec fps : ℚ) : ℕ := max 1 ⌈minEventSec * fps⌉.toNat

/-- 08's masked cents array (lines 81-83): present exactly where both `f0`
values are present and positive (`np.nan` elsewhere, embedded as `none`). -/
noncomputable def cents08 (fR fU2 : List (Option ℚ)) : List (Option ℝ) :=
  List.zipWith
    (fun r u =>
      match r, u with
      | some rv, some uv => if 0 < rv ∧ 0 < uv then some (centsFn uv rv) else none
      | _, _ => none)
    fR fU2

/-- 08's `lo = cents < -tol_cents` mask (NaN compares false). -/
noncomputable def loFlags08 (cents : List (Option ℝ)) (tol : ℚ) : List Bool :=
  cents.map (fun c =>
    match c with
    | some cv => decide (cv < -(tol : ℝ))
    | none => false)

/-- 08's `hi = cents > tol_cents` mask. -/
noncomputable def hiFlags08 (cents : List (Option ℝ)) (tol : ℚ) : List Bool :=
  cents.map (fun c =>
    match c with
    | some cv => decide ((tol : ℝ) < cv)
    | none => false)

/-- 08's `uv` mask (line 120): reference present and positive, user missing
or nonpositive. -/
def uvFlags08 (fR fU2 : List (Option ℚ)) : List Bool :=
  List.zipWith
    (fun r u =>
      match r with
      | some rv =>
        decide (0 < rv) &&
          (match u with
           | none => true
           | some uv => decide (uv ≤ 0))
      | none => false)
    fR fU2

/-- The present values of a masked cents slice (what `np.nanmean` and
`np.nanmax` reduce over). -/
def presentVals (seg : List (Option ℝ)) : List ℝ := seg.filterMap id

/-- `np.nanmean` over a masked slice (guarded nonempty at every use: a
low/high run only contains present cents). -/
noncomputable def nanmeanOpt (seg : List (Option ℝ)) : ℝ :=
  (presentVals seg).sum / ((presentVals seg).length : ℝ)

/-- `np.sign`. -/
noncomputable def npSign (x : ℝ) : ℝ := if x < 0 then -1 else if 0 < x then 1 else 0

/-- The event 08 emits for a low/high run `[s, e)` (lines 104-117):
`start = round(tR[s], 3)`, `end = round(tR[e-1], 3)` (the *bare* time of
the last included frame), `avg_cents = round(nanmean(seg), 1)`,
`max_cents = round(nanmax(abs(seg)) * sign(nanmean(seg)), 1)`. -/
noncomputable def mkEvent08 (tR : List ℚ) (cents : List (Option ℝ)) (kind : EventKind)
    (se : ℕ × ℕ) : Event ℝ :=
  let seg := (cents.drop se.1).take (se.2 - se.1)
  ⟨round3 (tR.getD se.1 0), round3 (tR.getD (se.2 - 1) 0), kind,
    some (round1 (nanmeanOpt seg)),
    some (round1 (listMax ((presentVals seg).map (fun x => |x|)) * npSign (nanmeanOpt seg)))⟩

/-- The event 08 emits for an `unvoiced_miss` run (lines 121-125): the same
bare-end convention, no cents statistics. -/
def mkEventUv08 (tR : List ℚ) (se : ℕ × ℕ) : Event ℝ :=
  ⟨round3 (tR.getD se.1 0), round3 (tR.getD (se.2 - 1) 0), EventKind.unvoiced_miss, none, none⟩

/-- The event list of 08's `compare_make_events` given the aligned arrays:
low runs, high runs, unvoiced-miss runs, then a stable sort by `start`
(`ev.sort(key=lambda x: x["start"])`). -/
noncomputable def events08 (tR : List ℚ) (fR fU2 : List (Option ℚ)) (tol : ℚ)
    (minFrames : ℕ) : List (Event ℝ) :=
  let cents := cents08 fR fU2
  let ev :=
    (segFromMask (loFlags08 cents tol) minFrames).map (mkEvent08 tR cents EventKind.pitch_low)
      ++ (segFromMask (hiFlags08 cents tol) minFrames).map (mkEvent08 tR cents EventKind.pitch_high)
      ++ (segFromMask (uvFlags08 fR fU2) minFrames).map (mkEventUv08 tR)
  ev.insertionSort (fun a b => a.start ≤ b.start)

/-- 08's `compare_make_events(dR, dU, tol_cents, min_event_sec)`: the
nearest-frame alignment (the `none` case again models its `IndexError` on
an empty user track), then `events08`.  `fps = sr/hop` comes from the
reference JSON header. -/
noncomputable def compareMakeEvents (dR dU : List PitchFrame) (sr hop tol minEventSec : ℚ) :
    Option (List (Event ℝ)) :=
  let tR := dR.map (fun p => p.1)
  let fR := dR.map (fun p => p.2)
  let tU := dU.map (fun p => p.1)
  let fU := dU.map (fun p => p.2)
  (alignOnRef tR tU).bind (fun choose =>
    (choose.mapM (fun i => pyGet fU i)).map (fun fU2 =>
      events08 tR fR fU2 tol (minFrames08 minEventSec (sr / hop))))

/-! ## tools/11_align_lyrics.py

Lyric text plays no role in any claim; it is carried as an opaque type `τ`.
A normalized input row (the output of `detect_input_rows`) is a text plus an
optional `(start, end)` pair (the normalization only keeps a time when both
keys are present).  `MIN_DUR` defaults to `0.40 = 2/5`; `GAP_SEC` is
accepted but never read by `voiced_segments`. -/

/-- An aligned lyric line; `stop` is the source's `end` field. -/
structure LyricLine (τ : Type) where
  start : ℚ
  stop : ℚ
  text : τ
deriving DecidableEq

/-- A normalized lyric input row. -/
abbrev LyricRow (τ : Type) : Type := τ × Option (ℚ × ℚ)

/-- 11's `voiced_segments(t, f, gap_sec)` (lines 21-42): maximal runs of
present-and-positive `f0` indices become `(t[first], t[last])` segments,
then every segment shorter than `MIN_DUR` is extended to `s + MIN_DUR`.
(`gap_sec` is a parameter of the source function but is never read.) -/
def voicedSegments (t : List ℚ) (f : List (Option ℚ)) : List (ℚ × ℚ) :=
  if t = [] ∨ f = [] then []
  else
    let mask := f.map (fun v =>
      match v with
      | some x => decide (0 < x)
      | none => false)
    (trueRuns mask 0 none).map (fun se =>
      let s := t.getD se.1 0
      let e := t.getD (se.2 - 1) 0
      if e - s < 2/5 then (s, s + 2/5) else (s, e))

/-- The per-line body of 11's `assign_from_timed` loop (lines 84-93): trim
`end` to the next line's `start`, then enforce the minimum duration, then
round to 3 decimals. -/
def assignLoop {τ : Type} : List (ℚ × ℚ × τ) → List (LyricLine τ)
  | [] => []
  | x :: rest =>
    let s := x.1
    let e1 := match rest.head? with
      | some y => min x.2.1 y.1
      | none => x.2.1
    let e2 := if e1 - s < 2/5 then s + 2/5 else e1
    ⟨round3 s, round3 e2, x.2.2⟩ :: assignLoop rest

/-- 11's `assign_from_timed(rows, total_end)` (lines 73-94): keep the rows
that carry a time, sort them by `start` (Python's stable sort), then run the
trim/minimum-duration loop.  (`total_end` is a parameter of the source
function but is never read.) -/
def assignFromTimed {τ : Type} (rows : List (LyricRow τ)) : List (LyricLine τ) :=
  let timed := rows.filterMap (fun r => r.2.map (fun se => (se.1, se.2, r.1)))
  assignLoop (timed.insertionSort (fun a b => a.1 ≤ b.1))

/-- The accumulation loop of `split_or_merge`'s merge branch (lines
114-123): collect segments into `bag` until `acc >= ratio` or the input is
exhausted, then emit `(bag[0][0], bag[-1][1])` with the minimum duration
enforced. -/
def mergePhase (ratio : ℚ) : List (ℚ × ℚ) → List (ℚ × ℚ) → ℚ → List (ℚ × ℚ)
  | [], _, _ => []
  | seg :: rest, bag, acc =>
    let bag2 := bag ++ [seg]
    let acc2 := acc + 1
    if ratio ≤ acc2 ∨ rest = [] then
      let s := (bag2.headD (0, 0)).1
      let e := (bag2.getLastD (0, 0)).2
      (s, if e - s < 2/5 then s + 2/5 else e) :: mergePhase ratio rest [] 0
    else mergePhase ratio rest bag2 acc2

/-- `split_or_merge`'s `while len(out) > n_lines` adjustment (lines
125-127): repeatedly merge the last two segments.  The fuel argument is the
initial length, enough for every iteration the source performs. -/
def shrinkTo (n : ℕ) : ℕ → List (ℚ × ℚ) → List (ℚ × ℚ)
  | 0, out => out
  | fuel + 1, out =>
    if n < out.length then
      shrinkTo n fuel
        (out.dropLast.dropLast
          ++ [((out.getD (out.length - 2) (0, 0)).1, (out.getD (out.length - 1) (0, 0)).2)])
    else out

/-- `split_or_merge`'s `while len(out) < n_lines` adjustment (lines
128-131): repeatedly halve the last segment.  Fuel `n` suffices. -/
def growTo (n : ℕ) : ℕ → List (ℚ × ℚ) → List (ℚ × ℚ)
  | 0, out => out
  | fuel + 1, out =>
    if out.length < n then
      let last := out.getLastD (0, 0)
      let m := (last.1 + last.2) / 2
      growTo n fuel (out.dropLast ++ [(last.1, m), (m, last.2)])
    else out

/-- The first index of a segment of maximal length (`max(range(len(out)),
key=...)`; Python's `max` keeps the first maximal element). -/
def argmaxLen : List (ℚ × ℚ) → ℕ → Option (ℕ × ℚ) → ℕ
  | [], _, some best => best.1
  | [], _, none => 0
  | se :: rest, i, none => argmaxLen rest (i + 1) (some (i, se.2 - se.1))
  | se :: rest, i, some best =>
    if best.2 < se.2 - se.1 then argmaxLen rest (i + 1) (some (i, se.2 - se.1))
    else argmaxLen rest (i + 1) (some best)

/-- The split branch of `split_or_merge` (lines 133-146): while there are
fewer segments than lines, replace the first longest segment by its two
halves.  Fuel `n` suffices. -/
def splitPhase (n : ℕ) : ℕ → List (ℚ × ℚ) → List (ℚ × ℚ)
  | 0, out => out
  | fuel + 1, out =>
    if out.length < n then
      let idx := argmaxLen out 0 none
      let se := out.getD idx (0, 0)
      let m := (se.1 + se.2) / 2
      splitPhase n fuel (out.take idx ++ [(se.1, m), (m, se.2)] ++ out.drop (idx + 1))
    else out

/-- 11's `split_or_merge(segs, n_lines)` (lines 96-146). -/
def splitOrMerge (segs : List (ℚ × ℚ)) (n : ℕ) : List (ℚ × ℚ) :=
  if n = 0 then []
  else if segs = [] then
    let dur := max ((2/5) * (n : ℚ)) (2 * (n : ℚ))
    (List.range n).map (fun i => ((i : ℚ) * dur / n, ((i : ℚ) + 1) * dur / n))
  else if segs.length = n then segs
  else if n < segs.length then
    let merged := mergePhase ((segs.length : ℚ) / (n : ℚ)) segs [] 0
    growTo n n (shrinkTo n merged.length merged)
  else (splitPhase n n segs).take n

/-- `has_timed`: whether any normalized row carries a time. -/
def hasTimed {τ : Type} (rows : List (LyricRow τ)) : Bool :=
  rows.any (fun r => r.2.isSome)

/-- The untimed branch of 11's `main` (lines 163-176): voiced segments (a
uniform dummy when there are none), `split_or_merge` to the line count,
then zip with the rows, enforcing the minimum duration once more before
rounding. -/
def alignLyricsUntimed {τ : Type} (tR : List ℚ) (fR : List (Option ℚ))
    (rows : List (LyricRow τ)) : List (LyricLine τ) :=
  let n := rows.length
  let segs0 := voicedSegments tR fR
  let segs := if segs0 = [] then
      (let dur := max (180 : ℚ) ((n : ℚ) * 2)
       (List.range n).map (fun i => ((i : ℚ) * dur / n, ((i : ℚ) + 1) * dur / n)))
    else segs0
  let segs2 := splitOrMerge segs n
  (List.zip segs2 rows).map (fun p =>
    let s := p.1.1
    let e := p.1.2
    let e2 := if e - s < 2/5 then s + 2/5 else e
    ⟨round3 s, round3 e2, p.2.1⟩)

/-- 11's `main` after input normalization: the timed path when any row
carries a time, the untimed distribution otherwise. -/
def alignLyrics {τ : Type} (tR : List ℚ) (fR : List (Option ℚ))
    (rows : List (LyricRow τ)) : List (LyricLine τ) :=
  if hasTimed rows then assignFromTimed rows else alignLyricsUntimed tR fR rows

/-- Totality of the by-`start` comparison used for sorting (for
`List.insertionSort` correctness lemmas). -/
instance {τ : Type} : IsTotal (ℚ × ℚ × τ) (fun a b => a.1 ≤ b.1) :=
  ⟨fun a b => le_total a.1 b.1⟩

/-- Transitivity of the by-`start` comparison. -/
instance {τ : Type} : IsTrans (ℚ × ℚ × τ) (fun a b => a.1 ≤ b.1) :=
  ⟨fun _ _ _ h1 h2 => le_trans h1 h2⟩

/-! # Helper lemmas -/

section RoundingLemmas

variable {α : Type} [LinearOrderedField α] [FloorRing α]

theorem floor_le_pyRound (q : α) : ⌊q⌋ ≤ pyRound q := by
  unfold pyRound
  dsimp only
  split_ifs <;> omega

theorem pyRound_le_floor_add_one (q : α) : pyRound q ≤ ⌊q⌋ + 1 := by
  unfold pyRound
  dsimp only
  split_ifs <;> omega

theorem abs_sub_pyRound (q : α) : |q - (pyRound q : α)| ≤ 1 / 2 := by
  have h0 : ((⌊q⌋ : ℤ) : α) ≤ q := Int.floor_le q
  have h1 : q < ((⌊q⌋ : ℤ) : α) + 1 := Int.lt_floor_add_one q
  unfold pyRound
  dsimp only
  split_ifs with c1 c2 c3 <;> rw [abs_le] <;> push_cast <;> constructor <;> linarith

theorem pyRound_intCast (n : ℤ) : pyRound ((n : α)) = n := by
  unfold pyRound
  dsimp only
  rw [Int.floor_intCast]
  simp

theorem pyRound_add_int_even (q : α) (n : ℤ) (hn : 2 ∣ n) :
    pyRound (q + (n : α)) = pyRound q + n := by
  unfold pyRound
  dsimp only
  rw [Int.floor_add_int]
  have hr : q + (n : α) - ((⌊q⌋ + n : ℤ) : α) = q - ((⌊q⌋ : ℤ) : α) := by
    push_cast
    ring
  rw [hr]
  split_ifs <;> omega

theorem pyRound_mono {q q2 : α} (h : q ≤ q2) : pyRound q ≤ pyRound q2 := by
  rcases lt_or_le ⌊q⌋ ⌊q2⌋ with hf | hf
  · have h1 := pyRound_le_floor_add_one q
    have h2 := floor_le_pyRound q2
    omega
  · have hfe : ⌊q⌋ = ⌊q2⌋ := le_antisymm (Int.floor_le_floor h) hf
    unfold pyRound
    dsimp only
    rw [← hfe]
    split_ifs <;> first | omega | linarith

theorem round3_mono {x y : α} (h : x ≤ y) : round3 x ≤ round3 y := by
  unfold round3
  have h2 : pyRound (1000 * x) ≤ pyRound (1000 * y) := pyRound_mono (by linarith)
  have h3 : ((pyRound (1000 * x) : ℤ) : α) ≤ ((pyRound (1000 * y) : ℤ) : α) := by
    exact_mod_cast h2
  linarith

theorem round3_add_two_fifths (x : α) : round3 (x + 2 / 5) = round3 x + 2 / 5 := by
  unfold round3
  have hx : 1000 * (x + 2 / 5) = 1000 * x + ((400 : ℤ) : α) := by
    push_cast
    ring
  rw [hx, pyRound_add_int_even _ 400 (by norm_num)]
  push_cast
  ring

theorem round3_stop_ge {s e : α} (h : s + 2 / 5 ≤ e) : round3 s + 2 / 5 ≤ round3 e := by
  have := round3_mono h
  rw [round3_add_two_fifths] at this
  linarith

theorem abs_round3_sub (x : α) : |round3 x - x| ≤ 1 / 2000 := by
  have h := abs_sub_pyRound (1000 * x)
  rw [abs_le] at h
  unfold round3
  rw [abs_le]
  constructor <;> [linarith [h.2]; linarith [h.1]]

theorem abs_round4_sub (x : α) : |round4 x - x| ≤ 1 / 20000 := by
  have h := abs_sub_pyRound (10000 * x)
  rw [abs_le] at h
  unfold round4
  rw [abs_le]
  constructor <;> [linarith [h.2]; linarith [h.1]]

theorem round3_mono_zero_one {x : α} (h0 : 0 ≤ x) (h1 : x ≤ 1) :
    0 ≤ round3 x ∧ round3 x ≤ 1 := by
  have hz : round3 (0 : α) = 0 := by
    unfold round3
    rw [show (1000 : α) * 0 = ((0 : ℤ) : α) by push_cast; ring, pyRound_intCast]
    push_cast
    ring
  have ho : round3 (1 : α) = 1 := by
    unfold round3
    rw [show (1000 : α) * 1 = ((1000 : ℤ) : α) by push_cast; ring, pyRound_intCast]
    push_cast
    ring
  constructor
  · have := round3_mono h0
    rwa [hz] at this
  · have := round3_mono h1
    rwa [ho] at this

theorem round4_mono_zero_one {x : α} (h0 : 0 ≤ x) (h1 : x ≤ 1) :
    0 ≤ round4 x ∧ round4 x ≤ 1 := by
  have hmono : ∀ a b : α, a ≤ b → round4 a ≤ round4 b := by
    intro a b hab
    unfold round4
    have h2 : pyRound (10000 * a) ≤ pyRound (10000 * b) := pyRound_mono (by linarith)
    have h3 : ((pyRound (10000 * a) : ℤ) : α) ≤ ((pyRound (10000 * b) : ℤ) : α) := by
      exact_mod_cast h2
    linarith
  have hz : round4 (0 : α) = 0 := by
    unfold round4
    rw [show (10000 : α) * 0 = ((0 : ℤ) : α) by push_cast; ring, pyRound_intCast]
    push_cast
    ring
  have ho : round4 (1 : α) = 1 := by
    unfold round4
    rw [show (10000 : α) * 1 = ((10000 : ℤ) : α) by push_cast; ring, pyRound_intCast]
    push_cast
    ring
  constructor
  · have := hmono 0 x h0
    rwa [hz] at this
  · have := hmono x 1 h1
    rwa [ho] at this

end RoundingLemmas

section MedianLemmas

variable {α : Type} [LinearOrderedField α]

theorem insertionSort_map_sub (l : List α) (c : α) :
    (l.map (fun x => x - c)).insertionSort (· ≤ ·)
      = (l.insertionSort (· ≤ ·)).map (fun x => x - c) := by
  have hperm : List.Perm ((l.map (fun x => x - c)).insertionSort (· ≤ ·))
      ((l.insertionSort (· ≤ ·)).map (fun x => x - c)) :=
    (List.perm_insertionSort _ _).trans
      ((List.perm_insertionSort (· ≤ ·) l).map (fun x => x - c)).symm
  have hs1 : List.Sorted (· ≤ ·) ((l.map (fun x => x - c)).insertionSort (· ≤ ·)) :=
    List.sorted_insertionSort _ _
  have hs2 : List.Sorted (· ≤ ·) ((l.insertionSort (· ≤ ·)).map (fun x => x - c)) :=
    List.Pairwise.map (fun x => x - c)
      (fun a b hab => by dsimp only; linarith)
      (List.sorted_insertionSort (· ≤ ·) l)
  exact List.eq_of_perm_of_sorted hperm hs1 hs2

theorem nanmedian_singleton (x : α) : nanmedian [x] = x := by
  simp [nanmedian]

theorem nanmedian_map_sub (l : List α) (c : α) (hl : l ≠ []) :
    nanmedian (l.map (fun x => x - c)) = nanmedian l - c := by
  unfold nanmedian
  rw [insertionSort_map_sub, List.length_map]
  have hlen : (l.insertionSort (· ≤ ·)).length = l.length :=
    List.length_insertionSort _ l
  have hpos : 0 < l.length := List.length_pos.mpr hl
  have hgetD : ∀ i, i < l.length →
      ((l.insertionSort (· ≤ ·)).map (fun x => x - c)).getD i 0
        = (l.insertionSort (· ≤ ·)).getD i 0 - c := by
    intro i hi
    rw [List.getD_eq_getElem _ _ (by simpa [hlen] using hi),
      List.getD_eq_getElem _ _ (by simpa [hlen] using hi), List.getElem_map]
  by_cases hodd : l.length % 2 = 1
  · rw [if_pos hodd, if_pos hodd, hgetD _ (by omega)]
  · rw [if_neg hodd, if_neg hodd, hgetD _ (by omega), hgetD _ (by omega)]
    ring

end MedianLemmas

section CountingLemmas

/-- Three-way counting: when, element by element, the indicators `p`, `q`,
`r` sum to the indicator `s`, the counts do too. -/
theorem countP_triple {β : Type} (p q r s : β → Bool) :
    ∀ l : List β, (∀ x ∈ l, (p x).toNat + (q x).toNat + (r x).toNat = (s x).toNat) →
      l.countP p + l.countP q + l.countP r = l.countP s := by
  intro l
  induction l with
  | nil => simp
  | cons a t ih =>
    intro h
    have ha := h a (List.mem_cons_self a t)
    have ht := ih (fun x hx => h x (List.mem_cons_of_mem a hx))
    simp only [List.countP_cons]
    rcases hp : p a <;> rcases hq : q a <;> rcases hr : r a <;> rcases hs : s a <;>
      simp [hp, hq, hr, hs] at ha ⊢ <;> omega

/-- Strict counting: if `p` implies `q` on `l` and some element of `l`
satisfies `q` but not `p`, then `p`'s count is strictly below `q`'s. -/
theorem countP_lt_countP {β : Type} (p q : β → Bool) :
    ∀ l : List β, (∀ x ∈ l, p x = true → q x = true) →
      (∃ x ∈ l, q x = true ∧ p x = false) → l.countP p < l.countP q := by
  intro l
  induction l with
  | nil =>
    rintro _ ⟨x, hx, _⟩
    cases hx
  | cons a t ih =>
    rintro h ⟨x, hx, hqx, hpx⟩
    simp only [List.countP_cons]
    rcases List.mem_cons.mp hx with rfl | hxt
    · have hle : t.countP p ≤ t.countP q :=
        List.countP_mono_left (fun y hy hp => h y (List.mem_cons_of_mem x hy) hp)
      rw [hpx, hqx]
      rw [if_neg (by decide : ¬ (false = true)), if_pos rfl]
      omega
    · have hlt := ih (fun y hy hp => h y (List.mem_cons_of_mem a hy) hp) ⟨x, hxt, hqx, hpx⟩
      have hhead : (if p a = true then 1 else 0) ≤ (if q a = true then 1 else 0) := by
        rcases hpa : p a
        · simp
        · rw [h a (List.mem_cons_self a t) hpa]
      omega

/-- Sums of products of pointwise-nonnegative lists are nonnegative. -/
theorem zipWith_mul_sum_nonneg :
    ∀ (l1 l2 : List ℚ), (∀ x ∈ l1, 0 ≤ x) → (∀ x ∈ l2, 0 ≤ x) →
      0 ≤ (List.zipWith (fun x y => x * y) l1 l2).sum := by
  intro l1
  induction l1 with
  | nil => simp
  | cons a t ih =>
    intro l2 h1 h2
    cases l2 with
    | nil => simp
    | cons b u =>
      simp only [List.zipWith_cons_cons, List.sum_cons]
      have ha := h1 a (List.mem_cons_self a t)
      have hb := h2 b (List.mem_cons_self b u)
      have := ih u (fun x hx => h1 x (List.mem_cons_of_mem a hx))
        (fun x hx => h2 x (List.mem_cons_of_mem b hx))
      nlinarith

end CountingLemmas

section RunLemmas

/-- Reading the head of a `drop` decomposition. -/
theorem drop_cons_decomp {β : Type} (l : List β) (i : ℕ) (v : β) (rest : List β)
    (h : l.drop i = v :: rest) : l[i]? = some v ∧ l.drop (i + 1) = rest := by
  constructor
  · have h0 := List.getElem?_drop l i 0
    rw [h] at h0
    simpa using h0.symm
  · have h1 : l.drop (i + 1) = (l.drop i).drop 1 := by
      rw [List.drop_drop, Nat.add_comm]
    rw [h1, h]
    rfl

/-- A `getD ... false = true` read is in range. -/
theorem getD_true_lt (l : List Bool) (i : ℕ) (h : l.getD i false = true) : i < l.length := by
  by_contra hge
  push_neg at hge
  rw [List.getD_eq_default l false hge] at h
  cases h

/-- Invariant of `trueRuns`: every emitted pair `[s, e)` is a nonempty run
whose last frame `e - 1` carries a `true` flag, with the run closed at `e`
(end of the list or a `false` flag). -/
theorem trueRuns_spec (flags0 : List Bool) :
    ∀ (rest : List Bool) (i : ℕ) (st : Option ℕ),
      flags0.drop i = rest →
      (∀ s0, st = some s0 → s0 < i ∧ flags0.getD (i - 1) false = true) →
      ∀ se ∈ trueRuns rest i st,
        se.1 < se.2 ∧ se.2 ≤ flags0.length ∧ flags0.getD (se.2 - 1) false = true ∧
          (se.2 = flags0.length ∨ flags0.getD se.2 false = false) := by
  intro rest
  induction rest with
  | nil =>
    intro i st hdrop hst se hse
    cases st with
    | none => simp [trueRuns] at hse
    | some s0 =>
      simp only [trueRuns, List.mem_singleton] at hse
      subst hse
      obtain ⟨h1, h2⟩ := hst s0 rfl
      have hiv : i - 1 < flags0.length := getD_true_lt _ _ h2
      have hlen : flags0.length ≤ i := List.drop_eq_nil_iff.mp hdrop
      have hieq : i = flags0.length := by omega
      exact ⟨h1, by omega, h2, Or.inl hieq⟩
  | cons v rest2 ih =>
    intro i st hdrop hst se hse
    obtain ⟨hgi, hdrop2⟩ := drop_cons_decomp flags0 i v rest2 hdrop
    have hgiD : flags0.getD i false = v := by
      rw [List.getD_eq_getElem?_getD, hgi]
      rfl
    have hilt : i < flags0.length := (List.getElem?_eq_some.mp hgi).1
    cases v with
    | false =>
      cases st with
      | none =>
        refine ih (i + 1) none hdrop2 ?_ se (by simpa [trueRuns] using hse)
        rintro s0 ⟨⟩
      | some s0 =>
        simp only [trueRuns, List.mem_cons] at hse
        rcases hse with rfl | hse2
        · obtain ⟨h1, h2⟩ := hst s0 rfl
          exact ⟨h1, by omega, h2, Or.inr hgiD⟩
        · refine ih (i + 1) none hdrop2 ?_ se hse2
          rintro s0 ⟨⟩
    | true =>
      cases st with
      | none =>
        refine ih (i + 1) (some i) hdrop2 ?_ se (by simpa [trueRuns] using hse)
        rintro s0 heq
        injection heq with heq2
        subst heq2
        exact ⟨by omega, by simpa using hgiD⟩
      | some s0 =>
        refine ih (i + 1) (some s0) hdrop2 ?_ se (by simpa [trueRuns] using hse)
        rintro s1 heq
        injection heq with heq2
        obtain ⟨h1, _⟩ := hst s0 rfl
        subst heq2
        exact ⟨by omega, by simpa using hgiD⟩

/-- The closed form of `trueRuns_spec` for `trueRuns flags 0 none`, the way
`group_events` and `voiced_segments` invoke it. -/
theorem trueRuns_run (flags : List Bool) (se : ℕ × ℕ) (h : se ∈ trueRuns flags 0 none) :
    se.1 < se.2 ∧ se.2 ≤ flags.length ∧ flags.getD (se.2 - 1) false = true ∧
      (se.2 = flags.length ∨ flags.getD se.2 false = false) :=
  trueRuns_spec flags flags 0 none (by simp) (by rintro s0 ⟨⟩) se h

/-- Invariant of 02's `segment_mask` state machine: every emitted segment
spans at least `min_len_frames` frames. -/
theorem segMaskAux_spec (minLen : ℕ) :
    ∀ (rest : List Bool) (i : ℕ) (st : Option ℕ),
      (∀ s0, st = some s0 → s0 ≤ i) →
      ∀ se ∈ segMaskAux minLen rest i st, se.1 + minLen ≤ se.2 := by
  intro rest
  induction rest with
  | nil =>
    intro i st _ se hse
    simp [segMaskAux] at hse
  | cons v rest2 ih =>
    intro i st hst se hse
    cases v with
    | true =>
      cases st with
      | none =>
        refine ih (i + 1) (some i) ?_ se (by simpa [segMaskAux] using hse)
        rintro s0 heq
        injection heq with heq2
        omega
      | some s0 =>
        refine ih (i + 1) (some s0) ?_ se (by simpa [segMaskAux] using hse)
        rintro s1 heq
        injection heq with heq2
        have hs := hst s0 rfl
        subst heq2
        omega
    | false =>
      cases st with
      | none =>
        refine ih (i + 1) none ?_ se (by simpa [segMaskAux] using hse)
        rintro s0 ⟨⟩
      | some s0 =>
        simp only [segMaskAux, List.mem_append] at hse
        rcases hse with hemit | hse2
        · have hs0 := hst s0 rfl
          by_cases hc : minLen ≤ i - s0
          · rw [if_pos hc] at hemit
            simp only [List.mem_singleton] at hemit
            subst hemit
            simp only
            omega
          · rw [if_neg hc] at hemit
            cases hemit
        · refine ih (i + 1) none ?_ se hse2
          rintro s0 ⟨⟩

theorem segFromMaskAux_false_none (m i : ℕ) (r : List Bool) :
    segFromMaskAux m (false :: r) i none = segFromMaskAux m r (i + 1) none := by
  simp [segFromMaskAux]

theorem segFromMaskAux_false_some (m i s0 : ℕ) (r : List Bool) :
    segFromMaskAux m (false :: r) i (some s0)
      = (if m ≤ i - s0 then [(s0, i)] else []) ++ segFromMaskAux m r (i + 1) none := by
  simp [segFromMaskAux]

theorem segFromMaskAux_true_none_nil (m i : ℕ) :
    segFromMaskAux m [true] i none
      = (if m ≤ i + 1 - i then [(i, i + 1)] else []) := by
  simp [segFromMaskAux]

theorem segFromMaskAux_true_none_cons (m i : ℕ) (w : Bool) (r : List Bool) :
    segFromMaskAux m (true :: w :: r) i none
      = segFromMaskAux m (w :: r) (i + 1) (some i) := by
  simp [segFromMaskAux]

theorem segFromMaskAux_true_some_nil (m i s0 : ℕ) :
    segFromMaskAux m [true] i (some s0)
      = (if m ≤ i + 1 - s0 then [(s0, i + 1)] else []) := by
  simp [segFromMaskAux]

theorem segFromMaskAux_true_some_cons (m i s0 : ℕ) (w : Bool) (r : List Bool) :
    segFromMaskAux m (true :: w :: r) i (some s0)
      = segFromMaskAux m (w :: r) (i + 1) (some s0) := by
  simp [segFromMaskAux]

/-- Invariant of 08's `seg_from_mask` state machine: every emitted segment
spans at least `min_frames` frames. -/
theorem segFromMaskAux_spec (minFrames : ℕ) :
    ∀ (rest : List Bool) (i : ℕ) (st : Option ℕ),
      (∀ s0, st = some s0 → s0 ≤ i) →
      ∀ se ∈ segFromMaskAux minFrames rest i st, se.1 + minFrames ≤ se.2 := by
  intro rest
  induction rest with
  | nil =>
    intro i st _ se hse
    simp [segFromMaskAux] at hse
  | cons v rest2 ih =>
    intro i st hst se hse
    have hemit : ∀ s0 e : ℕ, s0 ≤ e →
        se ∈ (if minFrames ≤ e - s0 then [(s0, e)] else []) → se.1 + minFrames ≤ se.2 := by
      intro s0 e hle hmem
      by_cases hc : minFrames ≤ e - s0
      · rw [if_pos hc] at hmem
        simp only [List.mem_singleton] at hmem
        subst hmem
        simp only
        omega
      · rw [if_neg hc] at hmem
        cases hmem
    have hnone : ∀ s1 : ℕ, (none : Option ℕ) = some s1 → s1 ≤ i + 1 := by
      rintro s1 ⟨⟩
    cases v with
    | false =>
      cases st with
      | none =>
        rw [segFromMaskAux_false_none] at hse
        exact ih (i + 1) none hnone se hse
      | some s0 =>
        have hs0 : s0 ≤ i := hst s0 rfl
        rw [segFromMaskAux_false_some] at hse
        rcases List.mem_append.mp hse with h1 | h2
        · exact hemit s0 i hs0 h1
        · exact ih (i + 1) none hnone se h2
    | true =>
      cases st with
      | none =>
        cases rest2 with
        | nil =>
          rw [segFromMaskAux_true_none_nil] at hse
          exact hemit i (i + 1) (by omega) hse
        | cons w r =>
          rw [segFromMaskAux_true_none_cons] at hse
          refine ih (i + 1) (some i) ?_ se hse
          rintro s1 heq
          injection heq with heq2
          omega
      | some s0 =>
        have hs0 : s0 ≤ i := hst s0 rfl
        cases rest2 with
        | nil =>
          rw [segFromMaskAux_true_some_nil] at hse
          exact hemit s0 (i + 1) (by omega) hse
        | cons w r =>
          rw [segFromMaskAux_true_some_cons] at hse
          refine ih (i + 1) (some s0) ?_ se hse
          rintro s1 heq
          injection heq with heq2
          omega

end RunLemmas

section BestLagLemmas

theorem scoreAt_nonneg (mR mUonR : List ℚ) (hR : ∀ x ∈ mR, 0 ≤ x)
    (hU : ∀ x ∈ mUonR, 0 ≤ x) (k : ℤ) : 0 ≤ scoreAt mR mUonR k := by
  unfold scoreAt
  apply zipWith_mul_sum_nonneg
  · intro x hx
    unfold overlapA at hx
    split_ifs at hx
    · exact hR x (List.mem_of_mem_drop hx)
    · exact hR x (List.mem_of_mem_take hx)
  · intro x hx
    unfold overlapB at hx
    split_ifs at hx
    · exact hU x (List.mem_of_mem_take hx)
    · exact hU x (List.mem_of_mem_drop (List.mem_of_mem_take hx))

/-- The best score never decreases along the fold, and if it did not change
then the whole state did not change. -/
theorem foldl_bestLagStep_ge (mR mUonR : List ℚ) :
    ∀ (l : List ℤ) (st : ℤ × ℚ),
      st.2 ≤ (l.foldl (bestLagStep mR mUonR) st).2 ∧
        ((l.foldl (bestLagStep mR mUonR) st).2 = st.2 →
          l.foldl (bestLagStep mR mUonR) st = st) := by
  intro l
  induction l with
  | nil => exact fun st => ⟨le_rfl, fun _ => rfl⟩
  | cons k0 l ih =>
    intro st
    simp only [List.foldl_cons]
    have hstep : st.2 ≤ (bestLagStep mR mUonR st k0).2 ∧
        ((bestLagStep mR mUonR st k0).2 = st.2 → bestLagStep mR mUonR st k0 = st) := by
      unfold bestLagStep
      split_ifs with h1 h2
      · exact ⟨le_rfl, fun _ => rfl⟩
      · exact ⟨le_of_lt h2, fun heq => absurd heq (by simp only; linarith)⟩
      · exact ⟨le_rfl, fun _ => rfl⟩
    obtain ⟨hge, hstay⟩ := ih (bestLagStep mR mUonR st k0)
    refine ⟨le_trans hstep.1 hge, fun heq => ?_⟩
    have h2 : (bestLagStep mR mUonR st k0).2 = st.2 := le_antisymm (heq ▸ hge) hstep.1
    rw [hstay (by rw [heq, h2]), hstep.2 h2]

/-- Fold invariant of 08's shift search: every scored lag in the remaining
scan either loses strictly to the final best score or ties it with the final
best lag *not after* it in scan order. -/
theorem foldl_bestLagStep_spec (mR mUonR : List ℚ)
    (hR : ∀ x ∈ mR, 0 ≤ x) (hU : ∀ x ∈ mUonR, 0 ≤ x) :
    ∀ (l : List ℤ) (st : ℤ × ℚ),
      List.Pairwise (· < ·) l →
      (st.2 < 0 ∨ (st.2 = scoreAt mR mUonR st.1 ∧ ∀ k2 ∈ l, st.1 < k2)) →
      ∀ k ∈ l, ¬ (overlapA mR k).length < 10 →
        scoreAt mR mUonR k < (l.foldl (bestLagStep mR mUonR) st).2 ∨
          (scoreAt mR mUonR k = (l.foldl (bestLagStep mR mUonR) st).2 ∧
            (l.foldl (bestLagStep mR mUonR) st).1 ≤ k) := by
  intro l
  induction l with
  | nil =>
    intro st _ _ k hk
    cases hk
  | cons k0 l ih =>
    intro st hpw hinv k hk hv
    simp only [List.foldl_cons]
    have hpw2 : List.Pairwise (· < ·) l := hpw.of_cons
    have hhead : ∀ k2 ∈ l, k0 < k2 := fun k2 h2 => (List.pairwise_cons.mp hpw).1 k2 h2
    rcases List.mem_cons.mp hk with rfl | hkl
    · -- the scrutinized lag is the head of the scan
      have hstep : bestLagStep mR mUonR st k = (k, scoreAt mR mUonR k) ∨
          (bestLagStep mR mUonR st k = st ∧ scoreAt mR mUonR k ≤ st.2 ∧
            st.1 ≤ k ∧ st.2 = scoreAt mR mUonR st.1) := by
        unfold bestLagStep
        rw [if_neg hv]
        split_ifs with h2
        · exact Or.inl rfl
        · push_neg at h2
          rcases hinv with hneg | ⟨hsc, hfut⟩
          · exfalso
            have := scoreAt_nonneg mR mUonR hR hU k
            linarith
          · exact Or.inr ⟨rfl, h2, le_of_lt (hfut k (List.mem_cons_self k l)), hsc⟩
      obtain ⟨hge, hstay⟩ := foldl_bestLagStep_ge mR mUonR l (bestLagStep mR mUonR st k)
      rcases hstep with hupd | ⟨hkeep, hle, hk1, hsc⟩
      · rw [hupd] at hge hstay ⊢
        rcases lt_or_eq_of_le hge with hlt | heq
        · exact Or.inl (by simpa using hlt)
        · right
          rw [hstay heq.symm]
          exact ⟨by simp [heq], le_rfl⟩
      · rw [hkeep] at hge hstay ⊢
        rcases lt_or_le (scoreAt mR mUonR k) (l.foldl (bestLagStep mR mUonR) st).2 with hlt | hge2
        · exact Or.inl hlt
        · have heq : (l.foldl (bestLagStep mR mUonR) st).2 = st.2 :=
            le_antisymm (by linarith) hge
          right
          rw [hstay heq]
          exact ⟨by linarith [heq], hk1⟩
    · -- the scrutinized lag is later in the scan
      have hinv2 : (bestLagStep mR mUonR st k0).2 < 0 ∨
          ((bestLagStep mR mUonR st k0).2 = scoreAt mR mUonR (bestLagStep mR mUonR st k0).1 ∧
            ∀ k2 ∈ l, (bestLagStep mR mUonR st k0).1 < k2) := by
        unfold bestLagStep
        split_ifs with h1 h2
        · rcases hinv with hneg | ⟨hsc, hfut⟩
          · exact Or.inl hneg
          · exact Or.inr ⟨hsc, fun k2 h2 => hfut k2 (List.mem_cons_of_mem k0 h2)⟩
        · exact Or.inr ⟨rfl, hhead⟩
        · rcases hinv with hneg | ⟨hsc, hfut⟩
          · exact Or.inl hneg
          · exact Or.inr ⟨hsc, fun k2 h2 => hfut k2 (List.mem_cons_of_mem k0 h2)⟩
      exact ih (bestLagStep mR mUonR st k0) hpw2 hinv2 k hkl hv

/-- The scanned lag list is strictly increasing. -/
theorem rangeInt_pairwise (lo hi : ℤ) : List.Pairwise (· < ·) (rangeInt lo hi) := by
  have h : List.Pairwise (· < ·)
      ((List.range (hi + 1 - lo).toNat).map (fun i : ℕ => lo + (i : ℤ))) := by
    refine List.Pairwise.map _ (fun a b hab => ?_) (List.pairwise_lt_range _)
    omega
  unfold rangeInt
  exact h

end BestLagLemmas

section LyricLemmas

/-- Every line emitted by the timed-path loop starts at the rounded start of
some input row and keeps at least the minimum duration. -/
theorem assignLoop_mem {τ : Type} :
    ∀ (l : List (ℚ × ℚ × τ)) (y : LyricLine τ), y ∈ assignLoop l →
      (∃ z ∈ l, y.start = round3 z.1) ∧ 2 / 5 ≤ y.stop - y.start := by
  intro l
  induction l with
  | nil =>
    intro y hy
    cases hy
  | cons x rest ih =>
    intro y hy
    simp only [assignLoop, List.mem_cons] at hy
    rcases hy with rfl | hy2
    · constructor
      · exact ⟨x, List.mem_cons_self x rest, rfl⟩
      · set e1 := match rest.head? with
          | some y2 => min x.2.1 y2.1
          | none => x.2.1 with he1
        simp only
        by_cases hc : e1 - x.1 < 2 / 5
        · rw [if_pos hc]
          have := round3_stop_ge (le_refl (x.1 + 2 / 5))
          linarith [round3_stop_ge (le_refl (x.1 + 2 / 5))]
        · rw [if_neg hc]
          push_neg at hc
          linarith [round3_stop_ge (by linarith : x.1 + 2 / 5 ≤ e1)]
    · obtain ⟨⟨z, hz, hzs⟩, hdur⟩ := ih y hy2
      exact ⟨⟨z, List.mem_cons_of_mem x hz, hzs⟩, hdur⟩

/-- The timed-path loop preserves sortedness by `start`. -/
theorem assignLoop_sorted {τ : Type} :
    ∀ l : List (ℚ × ℚ × τ), List.Pairwise (fun a b => a.1 ≤ b.1) l →
      List.Pairwise (fun a b : LyricLine τ => a.start ≤ b.start) (assignLoop l) := by
  intro l
  induction l with
  | nil =>
    intro _
    exact List.Pairwise.nil
  | cons x rest ih =>
    intro hpw
    obtain ⟨hhead, htail⟩ := List.pairwise_cons.mp hpw
    simp only [assignLoop]
    refine List.pairwise_cons.mpr ⟨?_, ih htail⟩
    intro y hy
    obtain ⟨⟨z, hz, hzs⟩, _⟩ := assignLoop_mem rest y hy
    simp only
    rw [hzs]
    exact round3_mono (hhead z hz)

end LyricLemmas

/-! # Claim theorems -/

/-- C4: the comparator is pointwise the cents function.  If both operands
are present and strictly positive the output is `1200 * log2(user/ref)`;
in every other case (missing, zero or negative) it is missing; `cents02` is
this function applied index by index; and for `f > 0` comparing `f` against
itself, `2f` against `f`, and `f/2` against `f` yields `0`, `+1200` and
`-1200` cents. -/
theorem hzToCents_pointwise :
    (∀ u r : ℚ, 0 < u → 0 < r →
      hzToCents (some u) (some r) = some (1200 * Real.logb 2 ((u : ℝ) / (r : ℝ)))) ∧
    (∀ u r : ℚ, u ≤ 0 ∨ r ≤ 0 → hzToCents (some u) (some r) = none) ∧
    (∀ r : Option ℚ, hzToCents none r = none) ∧
    (∀ u : Option ℚ, hzToCents u none = none) ∧
    (∀ (fU fR : List (Option ℚ)) (i : ℕ), i < fU.length → i < fR.length →
      (cents02 fU fR).getD i none = hzToCents (fU.getD i none) (fR.getD i none)) ∧
    (∀ f : ℚ, 0 < f →
      hzToCents (some f) (some f) = some 0 ∧
      hzToCents (some (2 * f)) (some f) = some 1200 ∧
      hzToCents (some (f / 2)) (some f) = some (-1200)) := by
  have hred : ∀ u r : ℚ, hzToCents (some u) (some r)
      = if u ≤ 0 ∨ r ≤ 0 then none else some (centsFn u r) := fun u r => rfl
  have hpos : ∀ u r : ℚ, 0 < u → 0 < r →
      hzToCents (some u) (some r) = some (1200 * Real.logb 2 ((u : ℝ) / (r : ℝ))) := by
    intro u r hu hr
    rw [hred, if_neg (by push_neg; exact ⟨hu, hr⟩)]
    rfl
  refine ⟨hpos, ?_, ?_, ?_, ?_, ?_⟩
  · intro u r h
    rw [hred, if_pos h]
  · intro r
    rfl
  · intro u
    cases u <;> rfl
  · intro fU fR i hU hR
    unfold cents02
    have hlen : i < (List.zipWith hzToCents fU fR).length := by
      rw [List.length_zipWith]
      omega
    rw [List.getD_eq_getElem _ _ hlen, List.getElem_zipWith,
      List.getD_eq_getElem _ _ hU, List.getD_eq_getElem _ _ hR]
  · intro f hf
    have hf2 : (f : ℝ) ≠ 0 := by
      exact_mod_cast ne_of_gt hf
    refine ⟨?_, ?_, ?_⟩
    · rw [hpos f f hf hf, div_self hf2]
      simp [Real.logb_one]
    · rw [hpos (2 * f) f (by linarith) hf]
      have h2 : ((2 * f : ℚ) : ℝ) / (f : ℝ) = 2 := by
        push_cast
        field_simp
      rw [h2, Real.logb_self_eq_one (by norm_num)]
      norm_num
    · rw [hpos (f / 2) f (by linarith) hf]
      have h2 : ((f / 2 : ℚ) : ℝ) / (f : ℝ) = 2⁻¹ := by
        push_cast
        field_simp
        ring
      rw [h2, Real.logb_inv, Real.logb_self_eq_one (by norm_num)]
      norm_num

/-- Witness for C4 at `f = 1`. -/
theorem hzToCents_pointwise_witness :
    0 < (1 : ℚ) ∧
      (hzToCents (some 1) (some 1) = some 0 ∧
        hzToCents (some (2 * 1)) (some 1) = some 1200 ∧
        hzToCents (some (1 / 2)) (some 1) = some (-1200)) :=
  ⟨by decide, hzToCents_pointwise.2.2.2.2.2 1 (by decide)⟩

/-- C8 (amended): 02's `align_user_to_ref` on an empty user track never
fails: it returns an all-`None` list of the reference length with no index
access, and the `f_usr_on_ref` built from it is likewise all `None` of the
reference length.  (The NumPy `align_on_ref` of 05/06 instead raises; see
the counterexample.) -/
theorem alignUserToRef_empty (tRef : List ℚ) (fUsr : List (Option ℚ)) :
    alignUserToRef tRef [] = List.replicate tRef.length none ∧
    fUsrOnRef02 tRef [] fUsr = List.replicate tRef.length none ∧
    (fUsrOnRef02 tRef [] fUsr).length = tRef.length := by
  have h1 : alignUserToRef tRef [] = List.replicate tRef.length none := by
    unfold alignUserToRef
    rw [if_pos rfl]
  have h2 : fUsrOnRef02 tRef [] fUsr = List.replicate tRef.length none := by
    unfold fUsrOnRef02
    rw [h1, List.map_replicate]
  exact ⟨h1, h2, by rw [h2, List.length_replicate]⟩

/-- Counterexample for C8: the NumPy nearest-frame lookup shared by 05, 06
and 08 raises (out-of-bounds array read, modelled as `none`) on an empty
user track with a nonempty reference. -/
theorem alignOnRef_empty_ce : alignOnRef [(0 : ℚ)] [] = none := by decide

/-- C7 (amended): whenever at least one cents value is present, the wrapped
median lies in the *closed* interval `[-600, +600]` (both endpoints are
attained; the claimed half-open interval `(-600, +600]` fails at a median of
`1800`, see the counterexample). -/
theorem wrappedMedianCents_bounds {α : Type} [LinearOrderedField α] [FloorRing α]
    (cents : List α) (h : cents ≠ []) :
    -600 ≤ wrappedMedianCents cents ∧ wrappedMedianCents cents ≤ 600 := by
  unfold wrappedMedianCents wrappedCents kOct
  rw [nanmedian_map_sub cents _ h]
  have hb := abs_sub_pyRound (nanmedian cents / 1200)
  rw [abs_le] at hb
  have hx : nanmedian cents = 1200 * (nanmedian cents / 1200) := by
    field_simp
  constructor <;> linarith [hb.1, hb.2,
    hx ▸ (le_refl (nanmedian cents))]

/-- Witness for C7 on the cents array `[100]`. -/
theorem wrappedMedianCents_bounds_witness :
    ([100] : List ℚ) ≠ [] ∧
      (-600 ≤ wrappedMedianCents ([100] : List ℚ) ∧
        wrappedMedianCents ([100] : List ℚ) ≤ 600) :=
  ⟨by decide, wrappedMedianCents_bounds ([100] : List ℚ) (by decide)⟩

/-- C1 (amended): 05's verdict chain equals the spec's decision procedure
with rules 6-7 replaced by a single final rule: every case that falls
through rules 1-5 yields `mostly_ok` (the code has no `needs_work`
branch). -/
theorem verdict05_eq_specAmended {α : Type} [LinearOrderedField α] [FloorRing α]
    (cents : List α) (fps tol minSeconds : α) :
    verdict05 cents fps tol minSeconds = specSummarizerVerdictAmended cents fps tol minSeconds := by
  simp only [verdict05, specSummarizerVerdictAmended]
  rcases Classical.em (minSeconds ≤ (cents.length : α) / fps ∧ cents ≠ []) with h | h
  · have hcond : ¬ ((cents.length : α) / fps < minSeconds ∨ cents = []) := by
      rw [not_or, not_lt]
      exact ⟨h.1, h.2⟩
    rw [if_pos h, if_neg hcond]
  · have hcond : (cents.length : α) / fps < minSeconds ∨ cents = [] := by
      rw [not_and_or, not_le, not_not] at h
      exact h
    rw [if_neg h, if_pos hcond]

/-- Counterexample for C1 as stated: on the cents array
`[0, 0, 0, 50, -50]` with `fps = 1/3` (15 s of voiced data) and the default
thresholds, all of rules 1-5 fall through and `percent_within_tol = 0.6 <
0.85`, so the spec's procedure says `needs_work` while the code emits
`mostly_ok`. -/
theorem verdict05_needs_work_ce :
    verdict05 ([0, 0, 0, 50, -50] : List ℚ) (1 / 3) 40 15 = Verdict.mostly_ok ∧
      specSummarizerVerdict ([0, 0, 0, 50, -50] : List ℚ) (1 / 3) 40 15
        = Verdict.needs_work := by
  have hmed : nanmedian ([0, 0, 0, 50, -50] : List ℚ) = 0 := by
    norm_num [nanmedian, List.insertionSort, List.orderedInsert]
  have hwithin : pWithin05 ([0, 0, 0, 50, -50] : List ℚ) 40 = 3 / 5 := by
    norm_num [pWithin05, List.countP_cons, List.countP_nil, abs_le]
  have hlow : pLow05 ([0, 0, 0, 50, -50] : List ℚ) 40 = 1 / 5 := by
    norm_num [pLow05, List.countP_cons, List.countP_nil]
  have hhigh : pHigh05 ([0, 0, 0, 50, -50] : List ℚ) 40 = 1 / 5 := by
    norm_num [pHigh05, List.countP_cons, List.countP_nil]
  have hmean : mean05 ([0, 0, 0, 50, -50] : List ℚ) = 0 := by
    norm_num [mean05]
  have hvar : variance05 ([0, 0, 0, 50, -50] : List ℚ) = 1000 := by
    norm_num [variance05, hmean]
  have hne : ([0, 0, 0, 50, -50] : List ℚ) ≠ [] := by simp
  constructor
  · norm_num [verdict05, bias05, hmed, hwithin, hlow, hhigh, hvar, hne]
  · norm_num [specSummarizerVerdict, bias05, hmed, hwithin, hlow, hhigh, hvar, hne]

/-- Exactly one of the three tolerance categories holds for each cents
value (this is where `0 ≤ tol` is needed: a negative tolerance would let
`c < -tol` and `c > tol` overlap). -/
theorem indicator_triple {α : Type} [LinearOrderedField α] (c tol : α) (ht : 0 ≤ tol) :
    (decide (|c| ≤ tol)).toNat + (decide (c < -tol)).toNat + (decide (tol < c)).toNat = 1 := by
  by_cases h1 : c < -tol
  · have h2 : ¬ (|c| ≤ tol) := by
      rw [abs_le]
      push_neg
      intro h3
      linarith
    have h3 : ¬ (tol < c) := by linarith
    simp [h1, h2, h3]
  · by_cases h2 : tol < c
    · have h3 : ¬ (|c| ≤ tol) := by
        rw [abs_le]
        push_neg
        intro h4
        linarith
      simp [h1, h2, h3]
    · have h3 : |c| ≤ tol := abs_le.mpr ⟨by linarith [not_lt.mp h1], not_lt.mp h2⟩
      simp [h1, h2, h3]

/-- The unrounded 05 fractions partition the cents array. -/
theorem percents05_sum {α : Type} [LinearOrderedField α] (cents : List α) (tol : α)
    (ht : 0 ≤ tol) (hne : cents ≠ []) :
    pLow05 cents tol + pWithin05 cents tol + pHigh05 cents tol = 1 ∧
      0 ≤ pWithin05 cents tol ∧ pWithin05 cents tol ≤ 1 := by
  have hcount := countP_triple (fun c => decide (|c| ≤ tol)) (fun c => decide (c < -tol))
    (fun c => decide (tol < c)) (fun _ => true) cents
    (fun x _ => by simpa using indicator_triple x tol ht)
  have htrue : cents.countP (fun _ => true) = cents.length :=
    List.countP_eq_length.mpr (fun a _ => rfl)
  have hlen : (0 : α) < (cents.length : α) := by
    have := List.length_pos.mpr hne
    exact_mod_cast this
  constructor
  · unfold pLow05 pWithin05 pHigh05
    rw [div_add_div_same, div_add_div_same]
    rw [show ((cents.countP (fun c => decide (c < -tol)) : ℕ) : α)
          + (cents.countP (fun c => decide (|c| ≤ tol)) : ℕ)
          + (cents.countP (fun c => decide (tol < c)) : ℕ) = ((cents.length : ℕ) : α) by
        rw [htrue] at hcount
        exact_mod_cast by omega]
    exact div_self (ne_of_gt hlen)
  · constructor
    · unfold pWithin05
      positivity
    · unfold pWithin05
      rw [div_le_one hlen]
      exact_mod_cast List.countP_le_length _

/-- The 01 pass's counters partition `voiced_frames` (for `0 ≤ tol`). -/
theorem count01_partition (ref usr : List PitchFrame) (tol : ℚ) (ht : 0 ≤ tol) :
    within01 ref usr tol + (lowFlags01 ref usr tol).count true
        + (highFlags01 ref usr tol).count true = voicedFrames01 ref usr := by
  unfold within01 lowFlags01 highFlags01 voicedFrames01
  simp only [List.count, List.countP_map]
  apply countP_triple
  intro i _
  simp only [Function.comp_apply, beq_true]
  unfold withinAt01 lowAt01 highAt01 bothAt01
  rcases f0At ref i with _ | r <;> rcases f0At usr i with _ | u <;> simp
  have htr : (0 : ℝ) ≤ ((tol : ℚ) : ℝ) := by exact_mod_cast ht
  simpa using indicator_triple (centsFn u r) ((tol : ℚ) : ℝ) htr

/-- `within` never exceeds `voiced_frames`. -/
theorem within01_le_voiced (ref usr : List PitchFrame) (tol : ℚ) :
    within01 ref usr tol ≤ voicedFrames01 ref usr := by
  unfold within01 voicedFrames01
  apply List.countP_mono_left
  intro i _ hw
  unfold withinAt01 at hw
  unfold bothAt01
  rcases hr : f0At ref i with _ | r <;> rcases hu : f0At usr i with _ | u <;>
    rw [hr, hu] at hw <;> simp_all

/-- C9 (amended): the reported fractions are probabilities and sum to one
up to their output rounding, *whenever at least one voiced frame (one
present cents value) exists*.  With no voiced frame, 01 reports all three as
`0` (see the counterexample) and 05 omits them. -/
theorem percents_sum_bounds :
    (∀ (α : Type) [LinearOrderedField α] [FloorRing α] (cents : List α) (tol : α),
      0 ≤ tol → cents ≠ [] →
        0 ≤ pWithinOut05 cents tol ∧ pWithinOut05 cents tol ≤ 1 ∧
          |pLowOut05 cents tol + pWithinOut05 cents tol + pHighOut05 cents tol - 1|
            ≤ 3 / 2000) ∧
    (∀ (ref usr : List PitchFrame) (tol : ℚ), 0 ≤ tol → 0 < voicedFrames01 ref usr →
      0 ≤ percentWithinOut01 ref usr tol ∧ percentWithinOut01 ref usr tol ≤ 1 ∧
        |percentLowOut01 ref usr tol + percentWithinOut01 ref usr tol
            + percentHighOut01 ref usr tol - 1| ≤ 3 / 20000) := by
  constructor
  · intro α _ _ cents tol ht hne
    obtain ⟨hsum, hw0, hw1⟩ := percents05_sum cents tol ht hne
    have hb := round3_mono_zero_one hw0 hw1
    refine ⟨hb.1, hb.2, ?_⟩
    have h1 := abs_round3_sub (pLow05 cents tol)
    have h2 := abs_round3_sub (pWithin05 cents tol)
    have h3 := abs_round3_sub (pHigh05 cents tol)
    rw [abs_le] at h1 h2 h3
    unfold pLowOut05 pWithinOut05 pHighOut05
    rw [abs_le]
    constructor <;> linarith
  · intro ref usr tol ht hv
    have hpart := count01_partition ref usr tol ht
    have hle := within01_le_voiced ref usr tol
    have hvne : (voicedFrames01 ref usr : ℝ) ≠ 0 := by
      have : (0 : ℝ) < (voicedFrames01 ref usr : ℝ) := by exact_mod_cast hv
      linarith
    have hvpos : (0 : ℝ) < (voicedFrames01 ref usr : ℝ) := by exact_mod_cast hv
    have hsum : (within01 ref usr tol : ℝ) / (voicedFrames01 ref usr : ℝ)
        + ((lowFlags01 ref usr tol).count true : ℝ) / (voicedFrames01 ref usr : ℝ)
        + ((highFlags01 ref usr tol).count true : ℝ) / (voicedFrames01 ref usr : ℝ) = 1 := by
      rw [div_add_div_same, div_add_div_same]
      rw [show ((within01 ref usr tol : ℕ) : ℝ)
            + ((lowFlags01 ref usr tol).count true : ℕ)
            + ((highFlags01 ref usr tol).count true : ℕ)
            = ((voicedFrames01 ref usr : ℕ) : ℝ) by exact_mod_cast by omega]
      exact div_self hvne
    have hiw : ¬ voicedFrames01 ref usr = 0 := by omega
    have hw0 : (0 : ℝ) ≤ (within01 ref usr tol : ℝ) / (voicedFrames01 ref usr : ℝ) := by
      positivity
    have hw1 : (within01 ref usr tol : ℝ) / (voicedFrames01 ref usr : ℝ) ≤ 1 := by
      rw [div_le_one hvpos]
      exact_mod_cast hle
    unfold percentWithinOut01 percentLowOut01 percentHighOut01
    rw [if_neg hiw, if_neg hiw, if_neg hiw]
    have hb := round4_mono_zero_one hw0 hw1
    refine ⟨hb.1, hb.2, ?_⟩
    have h1 := abs_round4_sub ((within01 ref usr tol : ℝ) / (voicedFrames01 ref usr : ℝ))
    have h2 := abs_round4_sub
      (((lowFlags01 ref usr tol).count true : ℝ) / (voicedFrames01 ref usr : ℝ))
    have h3 := abs_round4_sub
      (((highFlags01 ref usr tol).count true : ℝ) / (voicedFrames01 ref usr : ℝ))
    rw [abs_le] at h1 h2 h3
    rw [abs_le]
    constructor <;> linarith

/-- Witness for C9: the 05 part at the one-element rational cents array
`[0]` with the default tolerance, and the 01 part at a pair of tracks with
one voiced frame. -/
theorem percents_sum_bounds_witness :
    ((0 : ℚ) ≤ 40 ∧ ([0] : List ℚ) ≠ [] ∧
      (0 ≤ pWithinOut05 ([0] : List ℚ) 40 ∧ pWithinOut05 ([0] : List ℚ) 40 ≤ 1 ∧
        |pLowOut05 ([0] : List ℚ) 40 + pWithinOut05 ([0] : List ℚ) 40
            + pHighOut05 ([0] : List ℚ) 40 - 1| ≤ 3 / 2000)) ∧
    ((0 : ℚ) ≤ 40 ∧ 0 < voicedFrames01 [((0 : ℚ), some 2)] [((0 : ℚ), some 2)] ∧
      (0 ≤ percentWithinOut01 [((0 : ℚ), some 2)] [((0 : ℚ), some 2)] 40 ∧
        percentWithinOut01 [((0 : ℚ), some 2)] [((0 : ℚ), some 2)] 40 ≤ 1 ∧
        |percentLowOut01 [((0 : ℚ), some 2)] [((0 : ℚ), some 2)] 40
            + percentWithinOut01 [((0 : ℚ), some 2)] [((0 : ℚ), some 2)] 40
            + percentHighOut01 [((0 : ℚ), some 2)] [((0 : ℚ), some 2)] 40 - 1|
          ≤ 3 / 20000)) :=
  ⟨⟨by decide, by decide,
      percents_sum_bounds.1 ℚ ([0] : List ℚ) 40 (by decide) (by decide)⟩,
    ⟨by decide, by decide,
      percents_sum_bounds.2 [((0 : ℚ), some 2)] [((0 : ℚ), some 2)] 40 (by decide)
        (by decide)⟩⟩

/-- Counterexample for C9 as stated: on a track pair with no voiced overlap
(one reference frame, the user frame unvoiced) 01 still writes a summary,
whose three fractions are all `0`; they sum to `0`, not `1`. -/
theorem percents01_zero_ce :
    percentLowOut01 [((0 : ℚ), some 220)] [((0 : ℚ), none)] 40
        + percentWithinOut01 [((0 : ℚ), some 220)] [((0 : ℚ), none)] 40
        + percentHighOut01 [((0 : ℚ), some 220)] [((0 : ℚ), none)] 40 = 0 ∧
      (0 : ℝ) ≠ 1 := by
  have hv : voicedFrames01 [((0 : ℚ), some 220)] [((0 : ℚ), none)] = 0 := by decide
  have hz : round4 (0 : ℝ) = 0 := by norm_num [round4, pyRound]
  constructor
  · unfold percentLowOut01 percentWithinOut01 percentHighOut01
    rw [hv]
    simp [hz]
  · norm_num

/-- C10: in the 01 path, frames without a computed cents difference are
encoded as the cents value `0.0` in `cents_list`, and the distribution
statistics run over the *nonzero* entries (`voiced_cents`); hence a frame
where user and reference are voiced at exactly equal positive pitch has
cents exactly `0` and is excluded from `voiced_cents`, yet is counted by
`voiced_frames` and by the `within` counter behind `percent_within_tol`. -/
theorem voicedCents_excludes_equal (ref usr : List PitchFrame) (tol : ℚ) (i : ℕ) (r : ℚ)
    (hi : i < n01 ref usr) (hr : f0At ref i = some r) (hu : f0At usr i = some r)
    (hpos : 0 < r) (ht : 0 ≤ tol) :
    (∀ j, bothAt01 ref usr j = false → centsAt01 ref usr j = 0) ∧
    centsAt01 ref usr i = 0 ∧
    (voicedCents01 ref usr).length < voicedFrames01 ref usr ∧
    1 ≤ within01 ref usr tol ∧ 1 ≤ voicedFrames01 ref usr := by
  have hmiss : ∀ j, bothAt01 ref usr j = false → centsAt01 ref usr j = 0 := by
    intro j hb
    unfold bothAt01 at hb
    unfold centsAt01
    rcases hfr : f0At ref j with _ | a <;> rcases hfu : f0At usr j with _ | b <;> simp_all
  have hrne : ((r : ℚ) : ℝ) ≠ 0 := by
    have : (0 : ℝ) < ((r : ℚ) : ℝ) := by exact_mod_cast hpos
    linarith
  have hcf : centsFn r r = 0 := by
    unfold centsFn
    rw [div_self hrne, Real.logb_one, mul_zero]
  have hc0 : centsAt01 ref usr i = 0 := by
    unfold centsAt01
    rw [hr, hu]
    show centsFn r r = 0
    exact hcf
  have hboth : bothAt01 ref usr i = true := by
    unfold bothAt01
    rw [hr, hu]
    rfl
  refine ⟨hmiss, hc0, ?_, ?_, ?_⟩
  · unfold voicedCents01 centsList01 voicedFrames01
    rw [← List.countP_eq_length_filter, List.countP_map]
    apply countP_lt_countP
    · intro j hj hd
      by_contra hb
      have hb2 : bothAt01 ref usr j = false := by
        rcases hb3 : bothAt01 ref usr j
        · rfl
        · exact absurd hb3 hb
      have := hmiss j hb2
      simp only [Function.comp_apply, this] at hd
      simp at hd
    · refine ⟨i, List.mem_range.mpr hi, hboth, ?_⟩
      simp only [Function.comp_apply, hc0]
      simp
  · have : 0 < within01 ref usr tol := by
      unfold within01
      rw [List.countP_pos_iff]
      refine ⟨i, List.mem_range.mpr hi, ?_⟩
      unfold withinAt01
      rw [hr, hu]
      show decide (|centsFn r r| ≤ ((tol : ℚ) : ℝ)) = true
      rw [hcf]
      simp
      exact_mod_cast ht
    omega
  · have : 0 < voicedFrames01 ref usr := by
      unfold voicedFrames01
      rw [List.countP_pos_iff]
      exact ⟨i, List.mem_range.mpr hi, hboth⟩
    omega

/-- Witness for C10 at a one-frame pair of identical voiced tracks. -/
theorem voicedCents_excludes_equal_witness :
    (0 < n01 [((0 : ℚ), some 2)] [((0 : ℚ), some 2)] ∧
      f0At [((0 : ℚ), some 2)] 0 = some 2 ∧ f0At [((0 : ℚ), some 2)] 0 = some 2 ∧
      (0 : ℚ) < 2 ∧ (0 : ℚ) ≤ 40) ∧
    (centsAt01 [((0 : ℚ), some 2)] [((0 : ℚ), some 2)] 0 = 0 ∧
      (voicedCents01 [((0 : ℚ), some 2)] [((0 : ℚ), some 2)]).length
        < voicedFrames01 [((0 : ℚ), some 2)] [((0 : ℚ), some 2)] ∧
      1 ≤ within01 [((0 : ℚ), some 2)] [((0 : ℚ), some 2)] 40 ∧
      1 ≤ voicedFrames01 [((0 : ℚ), some 2)] [((0 : ℚ), some 2)]) := by
  have h := voicedCents_excludes_equal [((0 : ℚ), some 2)] [((0 : ℚ), some 2)] 40 0 2
    (by decide) rfl rfl (by decide) (by decide)
  exact ⟨⟨by decide, rfl, rfl, by decide, by decide⟩, h.2.1, h.2.2.1, h.2.2.2.1, h.2.2.2.2⟩

/-- C2 (amended): the 02 and 08 segmenters reject every maximal run
spanning fewer than `min_frames` frames - each emitted segment `[s, e)`
satisfies `s + min_frames ≤ e`.  (01's `group_events` applies no duration
gate at all and can emit events with `end - start < MIN_EVENT_DURATION`;
see the counterexample.) -/
theorem segment_min_frames :
    (∀ (mask : List Bool) (minLen : ℕ) (se : ℕ × ℕ),
      se ∈ segmentMask mask minLen → se.1 + minLen ≤ se.2) ∧
    (∀ (msk : List Bool) (minFrames : ℕ) (se : ℕ × ℕ),
      se ∈ segFromMask msk minFrames → se.1 + minFrames ≤ se.2) := by
  constructor
  · intro mask minLen se hse
    exact segMaskAux_spec minLen (mask ++ [false]) 0 none (by rintro s0 ⟨⟩) se hse
  · intro msk minFrames se hse
    exact segFromMaskAux_spec minFrames msk 0 none (by rintro s0 ⟨⟩) se hse

/-- Witness for C2 on the mask `[true, true, false]` with a two-frame
minimum. -/
theorem segment_min_frames_witness :
    ((0, 2) ∈ segmentMask [true, true, false] 2 ∧ (0, 2).1 + 2 ≤ (0, 2).2) ∧
    ((0, 2) ∈ segFromMask [true, true, false] 2 ∧ (0, 2).1 + 2 ≤ (0, 2).2) :=
  ⟨⟨by decide, segment_min_frames.1 [true, true, false] 2 (0, 2) (by decide)⟩,
    ⟨by decide, segment_min_frames.2 [true, true, false] 2 (0, 2) (by decide)⟩⟩

/-- Counterexample for C2 as stated: with the default `sr = 44100`,
`hop = 256`, a single-frame `unvoiced_miss` run (reference voiced, user
not) passes 01's `group_events` ungated and yields an event of duration
`0.006 s < 0.20 s`. -/
theorem events01_short_event_ce :
    events01 [((0 : ℚ), some 220)] [((0 : ℚ), none)] 44100 256 40
        = [⟨round3 (0 : ℚ), round3 ((0 : ℚ) + 256 / 44100), EventKind.unvoiced_miss,
            none, none⟩] ∧
      round3 ((0 : ℚ) + 256 / 44100) = 3 / 500 ∧ round3 (0 : ℚ) = 0 ∧
      (3 / 500 : ℚ) - 0 < 1 / 5 := by
  refine ⟨rfl, ?_, ?_, by norm_num⟩
  · norm_num [round3, pyRound]
  · norm_num [round3, pyRound]

/-- C3 (amended): in 01's `group_events`, where each `times` entry pairs a
frame time with that time plus one frame period `d`, every emitted event
ends at `round3` of the time of the last included frame (a frame whose flag
is `true`, with the run closed right after it) *plus* `d`.  (The 02 and 08
comparators instead use the bare time of the last included frame; see the
counterexample.) -/
theorem groupEvents_stop (flags : List Bool) (times : List (ℚ × ℚ)) (kind : EventKind)
    (cv : Option (List ℝ)) (d : ℚ)
    (htimes : ∀ p ∈ times, p.2 = p.1 + d) (hlen : times.length = flags.length) :
    ∀ ev ∈ groupEvents flags times kind cv, ∃ i, i < flags.length ∧
      flags.getD i false = true ∧
      (i + 1 = flags.length ∨ flags.getD (i + 1) false = false) ∧
      ev.stop = round3 ((times.getD i (0, 0)).1 + d) := by
  intro ev hev
  unfold groupEvents at hev
  obtain ⟨se, hse, hmk⟩ := List.mem_map.mp hev
  obtain ⟨h1, h2, h3, h4⟩ := trueRuns_run flags se hse
  have hstop : (mkEvent01 times kind cv se).stop
      = round3 ((times.getD (se.2 - 1) (0, 0)).2) := by
    unfold mkEvent01
    rcases cv with _ | cvl
    · rfl
    · dsimp only
      split_ifs
      · rfl
      · cases kind <;> rfl
  have hidx : se.2 - 1 < times.length := by omega
  have hmem : times.getD (se.2 - 1) (0, 0) ∈ times := by
    rw [List.getD_eq_getElem _ _ hidx]
    exact List.getElem_mem hidx
  refine ⟨se.2 - 1, by omega, h3, ?_, ?_⟩
  · rcases h4 with h4a | h4b
    · exact Or.inl (by omega)
    · right
      rw [show se.2 - 1 + 1 = se.2 from by omega]
      exact h4b
  · rw [← hmk, hstop, htimes _ hmem]

/-- Witness for C3 on a one-frame run with frame period `1/10`. -/
theorem groupEvents_stop_witness :
    ((∀ p ∈ [((0 : ℚ), (1 : ℚ) / 10)], p.2 = p.1 + 1 / 10) ∧
      ([((0 : ℚ), (1 : ℚ) / 10)].length = [true].length) ∧
      (⟨round3 (0 : ℚ), round3 ((1 : ℚ) / 10), EventKind.unvoiced_miss, none, none⟩ : Event ℝ)
        ∈ groupEvents [true] [((0 : ℚ), (1 : ℚ) / 10)] EventKind.unvoiced_miss none) ∧
    (∃ i, i < [true].length ∧ [true].getD i false = true ∧
      (i + 1 = [true].length ∨ [true].getD (i + 1) false = false) ∧
      (⟨round3 (0 : ℚ), round3 ((1 : ℚ) / 10), EventKind.unvoiced_miss, none,
          none⟩ : Event ℝ).stop
        = round3 (([((0 : ℚ), (1 : ℚ) / 10)].getD i (0, 0)).1 + 1 / 10)) := by
  have hp : ∀ p ∈ [((0 : ℚ), (1 : ℚ) / 10)], p.2 = p.1 + 1 / 10 := by
    intro p hp
    rw [List.mem_singleton] at hp
    subst hp
    norm_num
  have heq : groupEvents [true] [((0 : ℚ), (1 : ℚ) / 10)] EventKind.unvoiced_miss none
      = [⟨round3 (0 : ℚ), round3 ((1 : ℚ) / 10), EventKind.unvoiced_miss, none, none⟩] := rfl
  have hm : (⟨round3 (0 : ℚ), round3 ((1 : ℚ) / 10), EventKind.unvoiced_miss, none,
      none⟩ : Event ℝ)
      ∈ groupEvents [true] [((0 : ℚ), (1 : ℚ) / 10)] EventKind.unvoiced_miss none := by
    rw [heq]
    exact List.mem_singleton_self _
  exact ⟨⟨hp, rfl, hm⟩,
    groupEvents_stop [true] [((0 : ℚ), (1 : ℚ) / 10)] EventKind.unvoiced_miss none (1 / 10)
      hp rfl _ hm⟩

/-- Counterexample for C3 as stated: 08's `compare_make_events` (and the
identical construction in 02's main) ends an event at the *bare* rounded
time of the last included frame.  On a two-frame reference at `t = 0, 1`
(`sr = hop = 1`, frame period `1`) with an unvoiced user, the single
`unvoiced_miss` event ends at `round3 1 = 1`, not at the claimed
`round3 (1 + 1) = 2`. -/
theorem compareMakeEvents_bare_end_ce :
    compareMakeEvents [((0 : ℚ), some 220), ((1 : ℚ), some 220)]
        [((0 : ℚ), none), ((1 : ℚ), none)] 1 1 40 (1 / 5)
      = some [⟨round3 (0 : ℚ), round3 (1 : ℚ), EventKind.unvoiced_miss, none, none⟩] ∧
    round3 (1 : ℚ) = 1 ∧ round3 ((1 : ℚ) + 1 / 1) = 2 ∧ (1 : ℚ) ≠ 2 := by
  have halign : alignOnRef [(0 : ℚ), 1] [(0 : ℚ), 1] = some [0, 1] := by
    norm_num [alignOnRef, alignOnRefAt, searchsortedLeft, npClip, pyGet, List.mapM_cons,
      List.mapM_nil, List.mapM.loop, List.countP_cons, List.countP_nil]
  have hmap : ([0, 1] : List ℤ).mapM (fun i => pyGet ([none, none] : List (Option ℚ)) i)
      = some [none, none] := rfl
  have hmf : minFrames08 (1 / 5 : ℚ) ((1 : ℚ) / 1) = 1 := by
    norm_num [minFrames08, Int.ceil_le]
  have hev : events08 [(0 : ℚ), 1] [some 220, some 220] [none, none] 40 1
      = [⟨round3 (0 : ℚ), round3 (1 : ℚ), EventKind.unvoiced_miss, none, none⟩] := rfl
  refine ⟨?_, by norm_num [round3, pyRound], by norm_num [round3, pyRound], by norm_num⟩
  show (alignOnRef [(0 : ℚ), 1] [(0 : ℚ), 1]).bind
      (fun choose => (choose.mapM (fun i => pyGet ([none, none] : List (Option ℚ)) i)).map
        (fun fU2 => events08 [(0 : ℚ), 1] [some 220, some 220] fU2 40
          (minFrames08 (1 / 5) ((1 : ℚ) / 1)))) = _
  rw [halign]
  show (([0, 1] : List ℤ).mapM (fun i => pyGet ([none, none] : List (Option ℚ)) i)).map
      (fun fU2 => events08 [(0 : ℚ), 1] [some 220, some 220] fU2 40
        (minFrames08 (1 / 5) ((1 : ℚ) / 1))) = _
  rw [hmap, hmf]
  show some (events08 [(0 : ℚ), 1] [some 220, some 220] [none, none] 40 1) = _
  rw [hev]

/-- C5 (amended): every line 11 emits (both paths) keeps the minimum
duration `end - start ≥ MIN_LINE_DURATION = 0.4`, and in the timed path the
lines are sorted by `start`.  Pairwise non-overlap does *not* hold: the
trimming to the next line's start runs before the minimum-duration
extension, which can push a line's end past the next line's start (see the
counterexample; in the untimed path even sortedness can fail when the
extension makes a segment overlap more than half of its successor). -/
theorem alignLyrics_duration_sorted :
    (∀ (τ : Type) (tR : List ℚ) (fR : List (Option ℚ)) (rows : List (LyricRow τ))
        (l : LyricLine τ), l ∈ alignLyrics tR fR rows → 2 / 5 ≤ l.stop - l.start) ∧
    (∀ (τ : Type) (rows : List (LyricRow τ)),
      List.Pairwise (fun a b : LyricLine τ => a.start ≤ b.start) (assignFromTimed rows)) := by
  constructor
  · intro τ tR fR rows l hl
    unfold alignLyrics at hl
    split_ifs at hl with hht
    · unfold assignFromTimed at hl
      exact (assignLoop_mem _ l hl).2
    · unfold alignLyricsUntimed at hl
      obtain ⟨p, hp, hline⟩ := List.mem_map.mp hl
      subst hline
      dsimp only
      by_cases hc : p.1.2 - p.1.1 < 2 / 5
      · rw [if_pos hc]
        linarith [round3_stop_ge (le_refl (p.1.1 + 2 / 5))]
      · rw [if_neg hc]
        push_neg at hc
        linarith [round3_stop_ge (by linarith : p.1.1 + 2 / 5 ≤ p.1.2)]
  · intro τ rows
    unfold assignFromTimed
    exact assignLoop_sorted _ (List.sorted_insertionSort _ _)

/-- Witness for C5 on a one-row timed lyric input. -/
theorem alignLyrics_duration_sorted_witness :
    ((⟨round3 (0 : ℚ), round3 (1 : ℚ), 0⟩ : LyricLine ℕ)
        ∈ alignLyrics ([] : List ℚ) [] [((0 : ℕ), some ((0 : ℚ), 1))]) ∧
      2 / 5 ≤ (⟨round3 (0 : ℚ), round3 (1 : ℚ), (0 : ℕ)⟩ : LyricLine ℕ).stop
        - (⟨round3 (0 : ℚ), round3 (1 : ℚ), (0 : ℕ)⟩ : LyricLine ℕ).start := by
  have heq : alignLyrics ([] : List ℚ) [] [((0 : ℕ), some ((0 : ℚ), 1))]
      = [⟨round3 (0 : ℚ), round3 (1 : ℚ), 0⟩] := by
    norm_num [alignLyrics, hasTimed, assignFromTimed, assignLoop, List.insertionSort,
      List.orderedInsert]
  have hm : (⟨round3 (0 : ℚ), round3 (1 : ℚ), 0⟩ : LyricLine ℕ)
      ∈ alignLyrics ([] : List ℚ) [] [((0 : ℕ), some ((0 : ℚ), 1))] := by
    rw [heq]
    exact List.mem_singleton_self _
  exact ⟨hm, alignLyrics_duration_sorted.1 ℕ [] [] [((0 : ℕ), some ((0 : ℚ), 1))] _ hm⟩

/-- Counterexample for C5 as stated: two timed rows that both start at `0`.
The first line is trimmed to the second's start and then re-extended to the
minimum duration, ending at `0.4` - past the second line's start `0`.  The
emitted lines overlap, refuting the claimed `line[i].end ≤ line[i+1].start`. -/
theorem alignLyrics_overlap_ce :
    alignLyrics ([] : List ℚ) [] [((0 : ℕ), some ((0 : ℚ), 1)), ((1 : ℕ), some ((0 : ℚ), 1))]
        = [⟨0, 2 / 5, 0⟩, ⟨0, 1, 1⟩] ∧
      ¬ ((⟨0, 2 / 5, (0 : ℕ)⟩ : LyricLine ℕ).stop ≤ (⟨0, 1, (1 : ℕ)⟩ : LyricLine ℕ).start) := by
  constructor
  · norm_num [alignLyrics, hasTimed, assignFromTimed, assignLoop, List.insertionSort,
      List.orderedInsert, round3, pyRound]
  · norm_num

/-- C6 (amended): among the scored lags (at least 10 overlapping frames,
within the scanned window) the chosen lag attains the maximal
voiced-activity dot product, and on ties the *first lag in scan order* -
the most negative one - is kept: every other scored lag either loses
strictly or ties with the chosen lag not after it.  The chosen lag is *not*
in general the one of smallest absolute value (see the counterexample). -/
theorem bestLag_least (mR mUonR : List ℚ) (m : ℤ) (k : ℤ)
    (hR : ∀ x ∈ mR, 0 ≤ x) (hU : ∀ x ∈ mUonR, 0 ≤ x)
    (hk : k ∈ rangeInt (-m) m) (hv : ¬ (overlapA mR k).length < 10) :
    scoreAt mR mUonR k < (bestLag mR mUonR m).2 ∨
      (scoreAt mR mUonR k = (bestLag mR mUonR m).2 ∧ (bestLag mR mUonR m).1 ≤ k) := by
  unfold bestLag
  exact foldl_bestLagStep_spec mR mUonR hR hU (rangeInt (-m) m) (0, -1)
    (rangeInt_pairwise _ _) (Or.inl (by norm_num)) k hk hv

/-- Witness for C6 on two all-voiced ten-frame masks with a zero-width
scan. -/
theorem bestLag_least_witness :
    ((∀ x ∈ List.replicate 10 (1 : ℚ), 0 ≤ x) ∧
      (∀ x ∈ List.replicate 10 (1 : ℚ), 0 ≤ x) ∧
      (0 : ℤ) ∈ rangeInt (-0) 0 ∧
      ¬ (overlapA (List.replicate 10 (1 : ℚ)) 0).length < 10) ∧
    (scoreAt (List.replicate 10 (1 : ℚ)) (List.replicate 10 (1 : ℚ)) 0
        < (bestLag (List.replicate 10 (1 : ℚ)) (List.replicate 10 (1 : ℚ)) 0).2 ∨
      (scoreAt (List.replicate 10 (1 : ℚ)) (List.replicate 10 (1 : ℚ)) 0
          = (bestLag (List.replicate 10 (1 : ℚ)) (List.replicate 10 (1 : ℚ)) 0).2 ∧
        (bestLag (List.replicate 10 (1 : ℚ)) (List.replicate 10 (1 : ℚ)) 0).1 ≤ 0)) :=
  ⟨⟨by decide, by decide, by decide, by decide⟩,
    bestLag_least (List.replicate 10 (1 : ℚ)) (List.replicate 10 (1 : ℚ)) 0 0
      (by decide) (by decide) (by decide) (by decide)⟩

/-- Counterexample for C6 as stated: twelve frames on a unit grid, the user
voiced only at frame 5, the reference at frames 4 and 7.  Lags `-2` and
`+1` tie at the maximal dot product `1`, and the search keeps the first
maximum of the ascending scan: the chosen shift is `-2` although `+1` has
the same score and smaller absolute value - refuting "smallest `|Δt|`,
negative preferred among ties of equal absolute value". -/
theorem crosscorr_first_max_ce :
    crosscorrOffset [0, 1, 2, 3, 4, 5, 6, 7, 8, 9, 10, 11]
        [0, 0, 0, 0, 1, 0, 0, 1, 0, 0, 0, 0]
        [0, 1, 2, 3, 4, 5, 6, 7, 8, 9, 10, 11]
        [0, 0, 0, 0, 0, 1, 0, 0, 0, 0, 0, 0] 2 = some (-2, 1) ∧
      scoreAt [0, 0, 0, 0, 1, 0, 0, 1, 0, 0, 0, 0] [0, 0, 0, 0, 0, 1, 0, 0, 0, 0, 0, 0] 1
          = 1 ∧
      |(1 : ℤ)| < |(-2 : ℤ)| := by
  have hg0 : pyGet [(0 : ℚ), 1, 2, 3, 4, 5, 6, 7, 8, 9, 10, 11] (0 : ℤ) = some 0 := rfl
  have hg1 : pyGet [(0 : ℚ), 1, 2, 3, 4, 5, 6, 7, 8, 9, 10, 11] (1 : ℤ) = some 1 := rfl
  have hg2 : pyGet [(0 : ℚ), 1, 2, 3, 4, 5, 6, 7, 8, 9, 10, 11] (2 : ℤ) = some 2 := rfl
  have hg3 : pyGet [(0 : ℚ), 1, 2, 3, 4, 5, 6, 7, 8, 9, 10, 11] (3 : ℤ) = some 3 := rfl
  have hg4 : pyGet [(0 : ℚ), 1, 2, 3, 4, 5, 6, 7, 8, 9, 10, 11] (4 : ℤ) = some 4 := rfl
  have hg5 : pyGet [(0 : ℚ), 1, 2, 3, 4, 5, 6, 7, 8, 9, 10, 11] (5 : ℤ) = some 5 := rfl
  have hg6 : pyGet [(0 : ℚ), 1, 2, 3, 4, 5, 6, 7, 8, 9, 10, 11] (6 : ℤ) = some 6 := rfl
  have hg7 : pyGet [(0 : ℚ), 1, 2, 3, 4, 5, 6, 7, 8, 9, 10, 11] (7 : ℤ) = some 7 := rfl
  have hg8 : pyGet [(0 : ℚ), 1, 2, 3, 4, 5, 6, 7, 8, 9, 10, 11] (8 : ℤ) = some 8 := rfl
  have hg9 : pyGet [(0 : ℚ), 1, 2, 3, 4, 5, 6, 7, 8, 9, 10, 11] (9 : ℤ) = some 9 := rfl
  have hg10 : pyGet [(0 : ℚ), 1, 2, 3, 4, 5, 6, 7, 8, 9, 10, 11] (10 : ℤ) = some 10 := rfl
  have hg11 : pyGet [(0 : ℚ), 1, 2, 3, 4, 5, 6, 7, 8, 9, 10, 11] (11 : ℤ) = some 11 := rfl
  have ha0 : alignOnRefAt [(0 : ℚ), 1, 2, 3, 4, 5, 6, 7, 8, 9, 10, 11] 0 = some 0 := by
    norm_num [alignOnRefAt, searchsortedLeft, npClip, List.countP_cons, List.countP_nil,
      hg0, hg1]
  have ha1 : alignOnRefAt [(0 : ℚ), 1, 2, 3, 4, 5, 6, 7, 8, 9, 10, 11] 1 = some 1 := by
    norm_num [alignOnRefAt, searchsortedLeft, npClip, List.countP_cons, List.countP_nil,
      hg0, hg1]
  have ha2 : alignOnRefAt [(0 : ℚ), 1, 2, 3, 4, 5, 6, 7, 8, 9, 10, 11] 2 = some 2 := by
    norm_num [alignOnRefAt, searchsortedLeft, npClip, List.countP_cons, List.countP_nil,
      hg1, hg2]
  have ha3 : alignOnRefAt [(0 : ℚ), 1, 2, 3, 4, 5, 6, 7, 8, 9, 10, 11] 3 = some 3 := by
    norm_num [alignOnRefAt, searchsortedLeft, npClip, List.countP_cons, List.countP_nil,
      hg2, hg3]
  have ha4 : alignOnRefAt [(0 : ℚ), 1, 2, 3, 4, 5, 6, 7, 8, 9, 10, 11] 4 = some 4 := by
    norm_num [alignOnRefAt, searchsortedLeft, npClip, List.countP_cons, List.countP_nil,
      hg3, hg4]
  have ha5 : alignOnRefAt [(0 : ℚ), 1, 2, 3, 4, 5, 6, 7, 8, 9, 10, 11] 5 = some 5 := by
    norm_num [alignOnRefAt, searchsortedLeft, npClip, List.countP_cons, List.countP_nil,
      hg4, hg5]
  have ha6 : alignOnRefAt [(0 : ℚ), 1, 2, 3, 4, 5, 6, 7, 8, 9, 10, 11] 6 = some 6 := by
    norm_num [alignOnRefAt, searchsortedLeft, npClip, List.countP_cons, List.countP_nil,
      hg5, hg6]
  have ha7 : alignOnRefAt [(0 : ℚ), 1, 2, 3, 4, 5, 6, 7, 8, 9, 10, 11] 7 = some 7 := by
    norm_num [alignOnRefAt, searchsortedLeft, npClip, List.countP_cons, List.countP_nil,
      hg6, hg7]
  have ha8 : alignOnRefAt [(0 : ℚ), 1, 2, 3, 4, 5, 6, 7, 8, 9, 10, 11] 8 = some 8 := by
    norm_num [alignOnRefAt, searchsortedLeft, npClip, List.countP_cons, List.countP_nil,
      hg7, hg8]
  have ha9 : alignOnRefAt [(0 : ℚ), 1, 2, 3, 4, 5, 6, 7, 8, 9, 10, 11] 9 = some 9 := by
    norm_num [alignOnRefAt, searchsortedLeft, npClip, List.countP_cons, List.countP_nil,
      hg8, hg9]
  have ha10 : alignOnRefAt [(0 : ℚ), 1, 2, 3, 4, 5, 6, 7, 8, 9, 10, 11] 10 = some 10 := by
    norm_num [alignOnRefAt, searchsortedLeft, npClip, List.countP_cons, List.countP_nil,
      hg9, hg10]
  have ha11 : alignOnRefAt [(0 : ℚ), 1, 2, 3, 4, 5, 6, 7, 8, 9, 10, 11] 11 = some 11 := by
    norm_num [alignOnRefAt, searchsortedLeft, npClip, List.countP_cons, List.countP_nil,
      hg10, hg11]
  have halign : alignOnRef [(0 : ℚ), 1, 2, 3, 4, 5, 6, 7, 8, 9, 10, 11]
      [(0 : ℚ), 1, 2, 3, 4, 5, 6, 7, 8, 9, 10, 11]
      = some [0, 1, 2, 3, 4, 5, 6, 7, 8, 9, 10, 11] := by
    norm_num [alignOnRef, List.mapM_cons, List.mapM_nil, List.mapM.loop,
      ha0, ha1, ha2, ha3, ha4, ha5, ha6, ha7, ha8, ha9, ha10, ha11]
  have hmap : ([0, 1, 2, 3, 4, 5, 6, 7, 8, 9, 10, 11] : List ℤ).mapM
      (fun i => pyGet ([0, 0, 0, 0, 0, 1, 0, 0, 0, 0, 0, 0] : List ℚ) i)
      = some [0, 0, 0, 0, 0, 1, 0, 0, 0, 0, 0, 0] := rfl
  have hdt : dtOf [(0 : ℚ), 1, 2, 3, 4, 5, 6, 7, 8, 9, 10, 11] = 1 := by
    norm_num [dtOf, npDiff, nanmedian, List.insertionSort, List.orderedInsert]
  have hrange : rangeInt (-2) 2 = [-2, -1, 0, 1, 2] := by decide
  have hsm2 : scoreAt [(0 : ℚ), 0, 0, 0, 1, 0, 0, 1, 0, 0, 0, 0]
      [0, 0, 0, 0, 0, 1, 0, 0, 0, 0, 0, 0] (-2) = 1 := by
    norm_num [scoreAt, overlapA, overlapB, Int.toNat_ofNat, Int.natAbs_neg, Int.natAbs_ofNat]
  have hsm1 : scoreAt [(0 : ℚ), 0, 0, 0, 1, 0, 0, 1, 0, 0, 0, 0]
      [0, 0, 0, 0, 0, 1, 0, 0, 0, 0, 0, 0] (-1) = 0 := by
    norm_num [scoreAt, overlapA, overlapB, Int.toNat_ofNat, Int.natAbs_neg, Int.natAbs_ofNat]
  have hs0 : scoreAt [(0 : ℚ), 0, 0, 0, 1, 0, 0, 1, 0, 0, 0, 0]
      [0, 0, 0, 0, 0, 1, 0, 0, 0, 0, 0, 0] 0 = 0 := by
    norm_num [scoreAt, overlapA, overlapB, Int.toNat_ofNat, Int.natAbs_neg, Int.natAbs_ofNat]
  have hs1 : scoreAt [(0 : ℚ), 0, 0, 0, 1, 0, 0, 1, 0, 0, 0, 0]
      [0, 0, 0, 0, 0, 1, 0, 0, 0, 0, 0, 0] 1 = 1 := by
    norm_num [scoreAt, overlapA, overlapB, Int.toNat_ofNat, Int.natAbs_neg, Int.natAbs_ofNat]
  have hs2 : scoreAt [(0 : ℚ), 0, 0, 0, 1, 0, 0, 1, 0, 0, 0, 0]
      [0, 0, 0, 0, 0, 1, 0, 0, 0, 0, 0, 0] 2 = 0 := by
    norm_num [scoreAt, overlapA, overlapB, Int.natAbs_neg, Int.natAbs_ofNat,
      show Int.toNat (2 : ℤ) = 2 from rfl]
  have hpr : pyRound ((2 : ℚ) / 1) = 2 := by
    norm_num [pyRound]
  have hbl : bestLag [(0 : ℚ), 0, 0, 0, 1, 0, 0, 1, 0, 0, 0, 0]
      [0, 0, 0, 0, 0, 1, 0, 0, 0, 0, 0, 0] 2 = (-2, 1) := by
    unfold bestLag
    rw [hrange]
    simp only [List.foldl_cons, List.foldl_nil, bestLagStep, hsm2, hsm1, hs0, hs1, hs2]
    norm_num [overlapA]
  refine ⟨?_, hs1, by decide⟩
  show (alignOnRef [(0 : ℚ), 1, 2, 3, 4, 5, 6, 7, 8, 9, 10, 11]
      [(0 : ℚ), 1, 2, 3, 4, 5, 6, 7, 8, 9, 10, 11]).bind
      (fun choose => (choose.mapM
          (fun i => pyGet ([0, 0, 0, 0, 0, 1, 0, 0, 0, 0, 0, 0] : List ℚ) i)).map
        (fun mUonR =>
          let dt := dtOf [(0 : ℚ), 1, 2, 3, 4, 5, 6, 7, 8, 9, 10, 11]
          let m := pyRound (2 / dt)
          let bl := bestLag [(0 : ℚ), 0, 0, 0, 1, 0, 0, 1, 0, 0, 0, 0] mUonR m
          ((bl.1 : ℚ) * dt, bl.2))) = _
  rw [halign]
  show (([0, 1, 2, 3, 4, 5, 6, 7, 8, 9, 10, 11] : List ℤ).mapM
      (fun i => pyGet ([0, 0, 0, 0, 0, 1, 0, 0, 0, 0, 0, 0] : List ℚ) i)).map
      (fun mUonR =>
        let dt := dtOf [(0 : ℚ), 1, 2, 3, 4, 5, 6, 7, 8, 9, 10, 11]
        let m := pyRound (2 / dt)
        let bl := bestLag [(0 : ℚ), 0, 0, 0, 1, 0, 0, 1, 0, 0, 0, 0] mUonR m
        ((bl.1 : ℚ) * dt, bl.2)) = _
  rw [hmap]
  show some
      (let dt := dtOf [(0 : ℚ), 1, 2, 3, 4, 5, 6, 7, 8, 9, 10, 11]
       let m := pyRound (2 / dt)
       let bl := bestLag [(0 : ℚ), 0, 0, 0, 1, 0, 0, 1, 0, 0, 0, 0]
         [0, 0, 0, 0, 0, 1, 0, 0, 0, 0, 0, 0] m
       ((bl.1 : ℚ) * dt, bl.2)) = _
  rw [show
      (let dt := dtOf [(0 : ℚ), 1, 2, 3, 4, 5, 6, 7, 8, 9, 10, 11]
       let m := pyRound (2 / dt)
       let bl := bestLag [(0 : ℚ), 0, 0, 0, 1, 0, 0, 1, 0, 0, 0, 0]
         [0, 0, 0, 0, 0, 1, 0, 0, 0, 0, 0, 0] m
       ((bl.1 : ℚ) * dt, bl.2))
      = ((-2 : ℚ), (1 : ℚ)) from by
    rw [show
        (let dt := dtOf [(0 : ℚ), 1, 2, 3, 4, 5, 6, 7, 8, 9, 10, 11]
         let m := pyRound (2 / dt)
         let bl := bestLag [(0 : ℚ), 0, 0, 0, 1, 0, 0, 1, 0, 0, 0, 0]
           [0, 0, 0, 0, 0, 1, 0, 0, 0, 0, 0, 0] m
         ((bl.1 : ℚ) * dt, bl.2))
        = ((bestLag [(0 : ℚ), 0, 0, 0, 1, 0, 0, 1, 0, 0, 0, 0]
              [0, 0, 0, 0, 0, 1, 0, 0, 0, 0, 0, 0]
              (pyRound (2 / dtOf [(0 : ℚ), 1, 2, 3, 4, 5, 6, 7, 8, 9, 10, 11]))).1 * (1 : ℚ),
            (bestLag [(0 : ℚ), 0, 0, 0, 1, 0, 0, 1, 0, 0, 0, 0]
              [0, 0, 0, 0, 0, 1, 0, 0, 0, 0, 0, 0]
              (pyRound (2 / dtOf [(0 : ℚ), 1, 2, 3, 4, 5, 6, 7, 8, 9, 10, 11]))).2) from by
      rw [hdt]]
    rw [hdt, hpr, hbl]
    push_cast
    norm_num]

/-- Counterexample for C7 as stated: at the cents array `[1800]` the octave
index rounds (half-to-even) to `2` and the wrapped median is exactly
`-600`, outside the claimed half-open interval `(-600, +600]`. -/
theorem wrappedMedianCents_ce :
    wrappedMedianCents ([1800] : List ℚ) = -600 ∧
      ¬ (-600 < wrappedMedianCents ([1800] : List ℚ)) := by
  have hk : kOct ([1800] : List ℚ) = 2 := by
    unfold kOct
    rw [nanmedian_singleton]
    norm_num [pyRound]
  have h : wrappedMedianCents ([1800] : List ℚ) = -600 := by
    unfold wrappedMedianCents wrappedCents
    rw [hk]
    simp only [List.map]
    rw [nanmedian_singleton]
    push_cast
    ring
  exact ⟨h, by rw [h]; norm_num⟩

end SingingApp
